import Mathlib

/-!
Verification development for the container-assignment / tab-redirection logic of the
multi-account-containers extension (source files
`src-refactor/background-page/background-page.ts` — called variant 0 below — and
`src-refactor/background-page-1.ts` — called variant 1 below).

The TypeScript is embedded shallowly:
* JavaScript strings become `String`; `undefined`-able values become `Option _`.
* Browser platform primitives (the WHATWG `URL` constructor, `browser.tabs.move`)
  are modelled after their documented semantics; each such model carries a comment.
* Exceptions become `Except String _`; fire-and-forget browser calls are recorded
  as explicit action values so theorems can count them.
-/

namespace MAC

/-! ## JavaScript string primitives -/

/-- Model of JavaScript `String.prototype.replace` with a plain-string pattern:
it replaces only the first occurrence of `pat` (scanning left to right), or returns
the string unchanged when there is no occurrence.  Char-list version. -/
def jsReplaceFirstList (pat rep : List Char) : List Char → List Char
  | [] => if pat.isEmpty then rep else []
  | c :: rest =>
    if pat.isPrefixOf (c :: rest) then rep ++ (c :: rest).drop pat.length
    else c :: jsReplaceFirstList pat rep rest

/-- Model of JavaScript `s.replace(pat, rep)` for plain-string patterns. -/
def jsReplaceFirst (s pat rep : String) : String :=
  ⟨jsReplaceFirstList pat.data rep.data s.data⟩

/-- Model of JavaScript string truthiness for an optional string field:
`undefined` and the empty string are falsy. -/
def jsTruthy : Option String → Bool
  | none => false
  | some s => s ≠ ""

/-- Model of JavaScript `String(x)` on a possibly-`undefined` value. -/
def jsString : Option String → String
  | none => "undefined"
  | some s => s

/-! ## Container id ↔ cookie-store id (both variants) -/

/-- Source (variant 1, `getCookieStoreId`):
a cookie-store id is the container id with the fixed `firefox-container-` lead. -/
def getCookieStoreId (userContextId : String) : String :=
  "firefox-container-" ++ userContextId

/-- Source (variant 1, `getUserContextIdFromCookieStoreId`): returns `undefined` for a
falsy input, otherwise `replace`s the first occurrence of `firefox-container-` and
returns the result when the replacement changed the string, else `undefined`. -/
def getUserContextIdFromCookieStoreId (cookieStoreId : String) : Option String :=
  if cookieStoreId = "" then none
  else
    let container := jsReplaceFirst cookieStoreId "firefox-container-" ""
    if container ≠ cookieStoreId then some container else none

/-- Source (variant 0, `getUserContextIdFromCookieStoreId`): identical logic, with
`false` (here `none`) in place of `undefined` for the failure cases. -/
def getUserContextIdFromCookieStoreId0 (cookieStoreId : Option String) : Option String :=
  match cookieStoreId with
  | none => none
  | some s => getUserContextIdFromCookieStoreId s

/-! ## WHATWG URL model

The source calls `new URL(u)` / `new window.URL(u)`.  Per the URL standard the
parser lowercases the scheme, lowercases the host, parses the port as a number and
normalizes a port equal to the scheme's default (80 for http/ws, 443 for https/wss,
21 for ftp) to the empty string.  `protocol` is the scheme followed by `:`.  We model
the fragment of the standard exercised by this extension: absolute URLs of the shape
`scheme:opaque` and `scheme://host[:port][/?#]rest` (no userinfo, no IPv6 literals). -/

structure URLParts where
  protocol : String
  hostname : String
  port : String
  deriving DecidableEq, Repr

def asciiLower (c : Char) : Char :=
  if 'A' ≤ c ∧ c ≤ 'Z' then Char.ofNat (c.toNat + 32) else c

def isSchemeChar (c : Char) : Bool :=
  ('a' ≤ c ∧ c ≤ 'z') ∨ ('A' ≤ c ∧ c ≤ 'Z') ∨ ('0' ≤ c ∧ c ≤ '9') ∨ c = '+' ∨ c = '-' ∨ c = '.'

def isDigitChar (c : Char) : Bool := '0' ≤ c ∧ c ≤ '9'

def digitsToNat (l : List Char) : Nat :=
  l.foldl (fun a c => a * 10 + (c.toNat - '0'.toNat)) 0

/-- Default port of a scheme, per the URL standard's special schemes. -/
def defaultPort (scheme : String) : Option Nat :=
  if scheme = "http" ∨ scheme = "ws" then some 80
  else if scheme = "https" ∨ scheme = "wss" then some 443
  else if scheme = "ftp" then some 21
  else none

/-- Parse of the authority chars (host[:port]) of a special-scheme URL. -/
def parseAuthority (scheme : String) (auth : List Char) : Option URLParts :=
  let host := auth.takeWhile (fun c => c ≠ ':')
  let rest := auth.dropWhile (fun c => c ≠ ':')
  if host.isEmpty then none
  else
    let hostname : String := ⟨host.map asciiLower⟩
    match rest with
    | [] => some ⟨scheme ++ ":", hostname, ""⟩
    | _ :: portChars =>
      if portChars.all isDigitChar then
        if portChars.isEmpty then some ⟨scheme ++ ":", hostname, ""⟩
        else
          let p := digitsToNat portChars
          if defaultPort scheme = some p then some ⟨scheme ++ ":", hostname, ""⟩
          else some ⟨scheme ++ ":", hostname, toString p⟩
      else none

/-- Model of `new URL(s)` restricted to the shapes this extension feeds it.
`none` models the constructor throwing `TypeError`. -/
def parseURL (s : String) : Option URLParts :=
  let cs := s.data
  let schemeChars := cs.takeWhile (fun c => c ≠ ':')
  let rest := cs.dropWhile (fun c => c ≠ ':')
  if schemeChars.isEmpty ∨ ¬ schemeChars.all isSchemeChar then none
  else
    match rest with
    | [] => none
    | _ :: afterColon =>
      let scheme : String := ⟨schemeChars.map asciiLower⟩
      match afterColon with
      | '/' :: '/' :: tail =>
        let auth := tail.takeWhile (fun c => c ≠ '/' ∧ c ≠ '?' ∧ c ≠ '#')
        parseAuthority scheme auth
      | _ => some ⟨scheme ++ ":", "", ""⟩

/-! ## Site keys and the assignment storage area (variant 1, `getSiteStoreKey` etc.;
variant 0's `assignManager.storageArea` is line-for-line the same logic) -/

/-- Source: `getSiteStoreKey(pageUrl)`.  A falsy url yields the empty key; otherwise
the key is the storage lead `siteContainerMap@@_` followed by `url.hostname` when
`url.port` is the literal `'80'` or `'443'`, else followed by hostname and port
concatenated.  The result is `none` when `new URL` would throw. -/
def getSiteStoreKey (pageUrl : Option String) : Option String :=
  match pageUrl with
  | none => some ""
  | some u =>
    if u = "" then some ""
    else
      match parseURL u with
      | none => none
      | some url =>
        if url.port = "80" ∨ url.port = "443" then
          some ("siteContainerMap@@_" ++ url.hostname)
        else
          some ("siteContainerMap@@_" ++ url.hostname ++ url.port)

/-- Stored value of a site assignment: `userContextId` plus the `neverAsk` flag. -/
structure SiteSettings where
  userContextId : String
  neverAsk : Bool
  deriving DecidableEq, Repr

/-- One persisted key-value record.  `userContextId` is `none` for values that have
no such field (for example the `identitiesState@@_…` records), modelling that
JavaScript property access then yields `undefined`. -/
structure StoredVal where
  userContextId : Option String
  deriving DecidableEq, Repr

/-- The flat key-value persistence namespace. -/
abbrev Storage := List (String × StoredVal)

/-- Source: `getByContainer(userContextId)` — scans every stored key and keeps those
whose value's `userContextId`, coerced with `String(...)` on both sides, equals the
requested one.  We return the kept keys. -/
def getByContainerKeys (storage : Storage) (userContextId : String) : List String :=
  (storage.filter fun kv => jsString kv.2.userContextId = jsString (some userContextId)).map
    Prod.fst

/-- Source: `storageAreaDeleteContainer(userContextId)` — removes from storage
exactly the keys collected by `getByContainer`. -/
def storageAreaDeleteContainer (storage : Storage) (userContextId : String) : Storage :=
  storage.filter fun kv => ¬ kv.1 ∈ getByContainerKeys storage userContextId

/-- Source: `deleteContainer(userContextId)` — closes the container's tabs, removes
the contextual identity, then calls `storageAreaDeleteContainer`; the only
`browser.storage.local` mutation it performs is that removal. -/
def deleteContainerStorage (storage : Storage) (userContextId : String) : Storage :=
  storageAreaDeleteContainer storage userContextId

/-! ## Permissible URLs and `openNewTab` (variant 1) -/

def NEW_TAB_PAGES : List String :=
  ["about:startpage", "about:newtab", "about:home", "about:blank"]

/-- Source (variant 1, `isPermissibleURL`): falsy urls are not permissible, and the
protocols `about:`, `chrome:` and `moz-extension:` are thrown away.  `none` models
the `new URL` constructor throwing on an invalid url. -/
def isPermissibleURL (url : Option String) : Option Bool :=
  match url with
  | none => some false
  | some u =>
    if u = "" then some false
    else
      match parseURL u with
      | none => none
      | some parts =>
        if parts.protocol = "about:" ∨ parts.protocol = "chrome:" ∨
            parts.protocol = "moz-extension:" then some false
        else some true

structure OpenNewTabOptions where
  userContextId : Option String
  url : Option String
  nofocus : Option Bool
  pinned : Option Bool
  deriving DecidableEq, Repr

/-- Arguments of the `browser.tabs.create` call issued by `openNewTab`. -/
structure CreateTabCall where
  url : Option String
  active : Bool
  pinned : Bool
  cookieStoreId : String
  deriving DecidableEq, Repr

/-- Source (variant 1, `openNewTab`).  `Except.error` models an escaped `TypeError`;
`Except.ok none` is the silent refusal branch; `Except.ok (some call)` is the
`browser.tabs.create` invocation. -/
def openNewTab (options : OpenNewTabOptions) : Except String (Option CreateTabCall) :=
  let url : Option String :=
    match options.url with
    | some u => if u = "" then none else some u
    | none => none
  let userContextId : String :=
    match options.userContextId with
    | some s => if s = "" then "0" else s
    | none => "0"
  let active : Bool :=
    match options.nofocus with
    | some b => b
    | none => true
  let cookieStoreId := getCookieStoreId userContextId
  let url :=
    match url with
    | some u => if u ∈ NEW_TAB_PAGES then none else some u
    | none => none
  match isPermissibleURL url with
  | none => Except.error "TypeError: URL constructor"
  | some false => Except.ok none
  | some true =>
    Except.ok (some ⟨url, active, (options.pinned).getD false, cookieStoreId⟩)

/-! ## Tabs and the container tab-state store -/

/-- Observable fields of a browser tab used by this subsystem. -/
structure BTab where
  id : Nat
  url : Option String
  pinned : Bool
  active : Bool
  cookieStoreId : Option String
  deriving DecidableEq, Repr

/-- A hidden-tab snapshot: the copied tab with `active` forced to `false` and the
`hiddenState` marker added (`storeHidden`). -/
structure HiddenTab where
  url : Option String
  pinned : Bool
  active : Bool
  hiddenState : Bool
  deriving DecidableEq, Repr

/-- Source: `_createTabObject` copy followed by the two mutations in `storeHidden`. -/
def snapshotTab (t : BTab) : HiddenTab :=
  ⟨t.url, t.pinned, false, true⟩

/-- Source: `getContainerStoreKey(cookieStoreId)`. -/
def getContainerStoreKey (cookieStoreId : String) : String :=
  "identitiesState@@_" ++ cookieStoreId

/-- Source (variant 1, `storeHidden` body): the `forEach` over the queried tabs,
appending a snapshot for every tab whose url is permissible and dropping the rest.
`Except.error` models `isPermissibleURL` throwing out of the `forEach` on an
unparsable url, in which case nothing is persisted. -/
def storeHiddenAppend (acc : List HiddenTab) : List BTab → Except String (List HiddenTab)
  | [] => Except.ok acc
  | t :: ts =>
    match isPermissibleURL t.url with
    | none => Except.error "TypeError: URL constructor"
    | some false => storeHiddenAppend acc ts
    | some true => storeHiddenAppend (acc ++ [snapshotTab t]) ts

/-- Source (variant 1, `storeHidden`): reads the container state, appends the
permissible snapshots of the queried tabs, and persists the result. -/
def storeHidden (containerState : List HiddenTab) (tabsByContainer : List BTab) :
    Except String (List HiddenTab) :=
  storeHiddenAppend containerState tabsByContainer

/-! ## Argument checking and the three internal tab operations (claim C3)

Operations are given as a pair of the list of browser/storage effects they
performed and their outcome, so a theorem can state that a rejected call did not
touch any state. -/

structure TabMethodOptions where
  cookieStoreId : Option String
  windowId : Option Int
  deriving DecidableEq, Repr

/-- JavaScript property-presence test for the two required argument names. -/
def hasArg (options : TabMethodOptions) : String → Bool
  | "cookieStoreId" => options.cookieStoreId.isSome
  | "windowId" => options.windowId.isSome
  | _ => false

/-- JavaScript truthiness of the argument's value (`!options[arg]`). -/
def truthyArg (options : TabMethodOptions) : String → Bool
  | "cookieStoreId" => jsTruthy options.cookieStoreId
  | "windowId" =>
    match options.windowId with
    | some n => n ≠ 0
    | none => false
  | _ => false

/-- Source (variant 1, `checkArgs`): throws on the first required argument that is
absent or falsy. -/
def checkArgs1 (requiredArguments : List String) (options : TabMethodOptions)
    (methodName : String) : Except String Unit :=
  match requiredArguments with
  | [] => Except.ok ()
  | arg :: rest =>
    if ¬ hasArg options arg ∨ ¬ truthyArg options arg then
      Except.error (methodName ++ " must be called with " ++ arg ++ " argument.")
    else checkArgs1 rest options methodName

/-- Source (variant 0, `checkArgs`): the `forEach` callback does
`return new Error(...)` — it constructs the error message and returns it from the
callback, which `forEach` discards.  Nothing is ever thrown, so the check always
succeeds; the constructed-and-discarded messages are kept here to mirror the source. -/
def checkArgs0 (requiredArguments : List String) (options : TabMethodOptions)
    (methodName : String) : Except String Unit :=
  let _discardedErrors : List String :=
    requiredArguments.filterMap fun arg =>
      if ¬ hasArg options arg then
        some (methodName ++ " must be called with " ++ arg ++ " argument.")
      else none
  Except.ok ()

inductive Effect
  | storeRead (key : String)
  | storeWrite (key : String)
  | tabsQuery (cookieStoreId : Option String) (windowId : Option Int)
  | tabsRemove
  | tabsCreate
  | tabsMove
  | tabsUpdate
  | windowCreate
  deriving DecidableEq, Repr

/-- Browser-state inputs consumed by one internal tab operation. -/
structure TabsEnv where
  openTabs : List BTab
  storedHidden : Option (List HiddenTab)
  newWindowTabs : List BTab
  deriving Repr

/-- Effects of `identityStateGet`: a read, plus — since `get` persists a default on
a miss — a write when the key was absent. -/
def identityStateGetEffects (key : String) (stored : Option (List HiddenTab)) :
    List Effect × List HiddenTab :=
  match stored with
  | some l => ([Effect.storeRead key], l)
  | none => ([Effect.storeRead key, Effect.storeWrite key], [])

/-- Source (variant 1, `hideTabs`): `checkArgs` first, then `storeHidden`, then
`_closeTabs`. -/
def hideTabs1 (env : TabsEnv) (options : TabMethodOptions) :
    List Effect × Except String Unit :=
  match checkArgs1 ["cookieStoreId", "windowId"] options "hideTabs" with
  | Except.error e => ([], Except.error e)
  | Except.ok _ =>
    match getUserContextIdFromCookieStoreId0 options.cookieStoreId with
    | none => ([], Except.error "no userContextId!")
    | some userContextId =>
      let key := getContainerStoreKey (jsString options.cookieStoreId)
      let got := identityStateGetEffects key env.storedHidden
      let t1 := got.1 ++ [Effect.tabsQuery options.cookieStoreId options.windowId]
      match storeHiddenAppend got.2 env.openTabs with
      | Except.error e => (t1, Except.error e)
      | Except.ok _ =>
        let t2 := t1 ++ [Effect.storeWrite key]
        (t2 ++ [Effect.tabsQuery (some (getCookieStoreId userContextId)) options.windowId,
          Effect.tabsRemove], Except.ok ())

/-- Source (variant 1, `getTabs`): `checkArgs` first, then a tab query and the
container-state read. -/
def getTabs1 (env : TabsEnv) (options : TabMethodOptions) :
    List Effect × Except String Unit :=
  match checkArgs1 ["cookieStoreId", "windowId"] options "getTabs" with
  | Except.error e => ([], Except.error e)
  | Except.ok _ =>
    let key := getContainerStoreKey (jsString options.cookieStoreId)
    let got := identityStateGetEffects key env.storedHidden
    ([Effect.tabsQuery options.cookieStoreId options.windowId] ++ got.1, Except.ok ())

/-- Source (variant 1, `moveTabsToWindow`): `checkArgs` first, then the query and
container-state read, the early `return` when there is nothing to do, and otherwise
window creation, the moves/creates, the defensive cleanup and the final persist. -/
def moveTabsToWindow1 (unhideQueue : List String) (env : TabsEnv)
    (options : TabMethodOptions) : List Effect × Except String Unit :=
  match checkArgs1 ["cookieStoreId", "windowId"] options "moveTabsToWindow" with
  | Except.error e => ([], Except.error e)
  | Except.ok _ =>
    let key := getContainerStoreKey (jsString options.cookieStoreId)
    let t0 := [Effect.tabsQuery options.cookieStoreId options.windowId]
    let got := identityStateGetEffects key env.storedHidden
    let t1 := t0 ++ got.1
    if env.openTabs.isEmpty ∧ got.2.isEmpty then (t1, Except.ok ())
    else
      let t2 := t1 ++
        (if env.openTabs.isEmpty then [Effect.windowCreate]
         else [Effect.windowCreate, Effect.tabsUpdate, Effect.tabsMove])
      let t3 := t2 ++
        (if jsString options.cookieStoreId ∈ unhideQueue then []
         else got.2.map fun _ => Effect.tabsCreate)
      let cleanup :=
        (env.newWindowTabs.filter fun t => t.cookieStoreId ≠ options.cookieStoreId).map
          fun _ => Effect.tabsRemove
      (t3 ++ [Effect.tabsQuery none none] ++ cleanup ++ [Effect.storeWrite key],
        Except.ok ())

/-- Source (variant 0, `isPermissibleURL`): no falsy guard — `new URL(url)` is
called directly, so an `undefined`, empty or otherwise unparsable url throws. -/
def isPermissibleURL0 (url : Option String) : Option Bool :=
  match url with
  | none => none
  | some u =>
    if u = "" then none
    else
      match parseURL u with
      | none => none
      | some parts =>
        if parts.protocol = "about:" ∨ parts.protocol = "chrome:" ∨
            parts.protocol = "moz-extension:" then some false
        else some true

/-- Source (variant 0, `storeHidden` body): as variant 1 but with variant 0's
`isPermissibleURL`. -/
def storeHiddenAppend0 (acc : List HiddenTab) : List BTab → Except String (List HiddenTab)
  | [] => Except.ok acc
  | t :: ts =>
    match isPermissibleURL0 t.url with
    | none => Except.error "TypeError: URL constructor"
    | some false => storeHiddenAppend0 acc ts
    | some true => storeHiddenAppend0 (acc ++ [snapshotTab t]) ts

/-- String coercion of variant 0's `false | string` container id when it is spliced
into a template literal. -/
def jsStringUci : Option String → String
  | none => "false"
  | some s => s

/-- Source (variant 0, `hideTabs`): `checkArgs` never fails (see `checkArgs0`), the
destructured arguments may be `undefined`, and the operation proceeds: the
container-state store is read and written under the key built from the stringified
`cookieStoreId`, and `_closeTabs` runs with the `false` container id. -/
def hideTabs0 (env : TabsEnv) (options : TabMethodOptions) :
    List Effect × Except String Unit :=
  match checkArgs0 ["cookieStoreId", "windowId"] options "hideTabs" with
  | Except.error e => ([], Except.error e)
  | Except.ok _ =>
    let userContextId := getUserContextIdFromCookieStoreId0 options.cookieStoreId
    let key := getContainerStoreKey (jsString options.cookieStoreId)
    let got := identityStateGetEffects key env.storedHidden
    let t1 := got.1 ++ [Effect.tabsQuery options.cookieStoreId options.windowId]
    match storeHiddenAppend0 got.2 env.openTabs with
    | Except.error e => (t1, Except.error e)
    | Except.ok _ =>
      let t2 := t1 ++ [Effect.storeWrite key]
      (t2 ++ [Effect.tabsQuery (some (getCookieStoreId (jsStringUci userContextId)))
        options.windowId, Effect.tabsRemove], Except.ok ())

/-! ## The navigation interceptor (`onBeforeRequest`, both variants)

The in-flight cancellation ledger `canceledRequests` is passed and returned
explicitly.  The decision (`cancel`), the `reloadPageInContainer` invocations, the
tab removal and the stale-assignment deletion are returned as data.  The 2-second
expiry timers and the `onCompleted`/`onErrorOccurred` cleanups act between events
and are modelled by the caller choosing the incoming ledger. -/

/-- One tab-id entry of the cancellation ledger: the requestIds and urls already
canceled for that tab (JavaScript objects used as sets). -/
structure CanceledEntry where
  requestIds : List String
  urls : List String
  deriving DecidableEq, Repr

abbrev Ledger := List (Nat × CanceledEntry)

def ledgerLookup : Ledger → Nat → Option CanceledEntry
  | [], _ => none
  | kv :: rest, tabId => if kv.1 = tabId then some kv.2 else ledgerLookup rest tabId

def ledgerInsert (l : Ledger) (tabId : Nat) (e : CanceledEntry) : Ledger :=
  l ++ [(tabId, e)]

def ledgerUpdate : Ledger → Nat → CanceledEntry → Ledger
  | [], _, _ => []
  | kv :: rest, tabId, e =>
    if kv.1 = tabId then (tabId, e) :: ledgerUpdate rest tabId e
    else kv :: ledgerUpdate rest tabId e

/-- Set-style insertion into a JavaScript object used as a set of keys. -/
def addKey (l : List String) (k : String) : List String :=
  if k ∈ l then l else l ++ [k]

/-- The tab object returned by `browser.tabs.get(options.tabId)`. -/
structure NavTab where
  id : Nat
  url : Option String
  cookieStoreId : Option String
  incognito : Bool
  openerTabId : Option Nat
  index : Nat
  active : Bool
  deriving DecidableEq, Repr

/-- Request metadata delivered by `webRequest.onBeforeRequest`. -/
structure ReqOptions where
  requestId : String
  url : String
  frameId : Nat
  tabId : Int
  deriving DecidableEq, Repr

/-- Arguments of one `reloadPageInContainer` invocation. -/
structure RerouteCall where
  url : String
  currentUserContextId : Option String
  targetUserContextId : String
  index : Nat
  active : Bool
  neverAsk : Bool
  openerTabId : Option Nat
  deriving DecidableEq, Repr

/-- Environment state consulted by one navigation event: the tab object, the
persisted site assignments, the set of existing contextual identities (as
cookie-store ids), the in-memory exemption map keyed by site key, and the
last-created-tab marker. -/
structure NavEnv where
  tab : NavTab
  assignStorage : List (String × SiteSettings)
  existingContainers : List String
  exemptedTabs : List (String × List Nat)
  lastCreatedTabId : Option Nat
  deriving DecidableEq, Repr

/-- Source: `storageArea.get(pageUrl)` resolved against the persisted assignments. -/
def storageAreaGetNav (storage : List (String × SiteSettings)) (url : String) :
    Option SiteSettings :=
  match getSiteStoreKey (some url) with
  | none => none
  | some key => (storage.find? fun kv => kv.1 = key).map Prod.snd

/-- Source: `isExempted(pageUrl, tabId)` — membership of the tab id in the
exemption list of the url's site key. -/
def isExempted (exemptedTabs : List (String × List Nat)) (pageUrl : String)
    (tabId : Nat) : Bool :=
  match getSiteStoreKey (some pageUrl) with
  | none => false
  | some key =>
    match exemptedTabs.find? fun kv => kv.1 = key with
    | none => false
    | some kv => tabId ∈ kv.2

/-- Outcome of one navigation event: the blocking response (`cancel`), the updated
ledger, the `reloadPageInContainer` calls made, the removed tab (if any) and the
container id whose stale assignment was deleted (if any). -/
structure NavOutcome where
  cancel : Bool
  ledger : Ledger
  reroutes : List RerouteCall
  removedTabId : Option Nat
  staleDeleted : Option String
  deriving DecidableEq, Repr

/-- Source (variant 1, `onBeforeRequest`).  An unparsable url makes the real
`storageAreaGet` promise reject, which lets the request continue with no side
effect; that coincides with the no-assignment allow branch of this model. -/
def onBeforeRequest1 (env : NavEnv) (canceledRequests : Ledger) (options : ReqOptions) :
    NavOutcome :=
  if options.frameId ≠ 0 ∨ options.tabId = -1 then
    ⟨false, canceledRequests, [], none, none⟩
  else
    let tab := env.tab
    let siteSettings := storageAreaGetNav env.assignStorage options.url
    let container : Bool :=
      match siteSettings with
      | some ss => getCookieStoreId ss.userContextId ∈ env.existingContainers
      | none => false
    match siteSettings with
    | none => ⟨false, canceledRequests, [], none, none⟩
    | some ss =>
      if ¬ container then
        ⟨false, canceledRequests, [], none, some ss.userContextId⟩
      else
        let userContextId := getUserContextIdFromCookieStoreId0 tab.cookieStoreId
        if userContextId = none ∨ userContextId = some ss.userContextId ∨
            tab.incognito ∨ isExempted env.exemptedTabs options.url tab.id then
          ⟨false, canceledRequests, [], none, none⟩
        else
          let removeTab : Bool :=
            (match tab.url with
              | some u => decide (u ∈ NEW_TAB_PAGES)
              | none => false) ||
            decide (env.lastCreatedTabId = some tab.id)
          let openTabId := if removeTab then tab.openerTabId else some tab.id
          let reroute : RerouteCall :=
            ⟨options.url, userContextId, ss.userContextId, tab.index + 1, tab.active,
              ss.neverAsk, openTabId⟩
          let removed := if removeTab then some tab.id else none
          match ledgerLookup canceledRequests tab.id with
          | none =>
            ⟨true,
              ledgerInsert canceledRequests tab.id ⟨[options.requestId], [options.url]⟩,
              [reroute], removed, none⟩
          | some entry =>
            let cancelEarly :=
              options.requestId ∈ entry.requestIds ∨ options.url ∈ entry.urls
            let entry' : CanceledEntry :=
              ⟨addKey entry.requestIds options.requestId, addKey entry.urls options.url⟩
            let led' := ledgerUpdate canceledRequests tab.id entry'
            if cancelEarly then ⟨true, led', [], none, none⟩
            else ⟨true, led', [reroute], removed, none⟩

/-- Source (variant 0, `onBeforeRequest`).  Differences from variant 1: the guard
does not test `userContextId` for truthiness, and the possibly-`false` container id
is handed to `reloadPageInContainer` as is. -/
def onBeforeRequest0 (env : NavEnv) (canceledRequests : Ledger) (options : ReqOptions) :
    NavOutcome :=
  if options.frameId ≠ 0 ∨ options.tabId = -1 then
    ⟨false, canceledRequests, [], none, none⟩
  else
    let tab := env.tab
    let siteSettings := storageAreaGetNav env.assignStorage options.url
    let container : Bool :=
      match siteSettings with
      | some ss => getCookieStoreId ss.userContextId ∈ env.existingContainers
      | none => false
    match siteSettings with
    | none => ⟨false, canceledRequests, [], none, none⟩
    | some ss =>
      if ¬ container then
        ⟨false, canceledRequests, [], none, some ss.userContextId⟩
      else
        let userContextId := getUserContextIdFromCookieStoreId0 tab.cookieStoreId
        if userContextId = some ss.userContextId ∨
            tab.incognito ∨ isExempted env.exemptedTabs options.url tab.id then
          ⟨false, canceledRequests, [], none, none⟩
        else
          let removeTab : Bool :=
            (match tab.url with
              | some u => decide (u ∈ NEW_TAB_PAGES)
              | none => false) ||
            decide (env.lastCreatedTabId = some tab.id)
          let openTabId := if removeTab then tab.openerTabId else some tab.id
          let reroute : RerouteCall :=
            ⟨options.url, userContextId, ss.userContextId, tab.index + 1, tab.active,
              ss.neverAsk, openTabId⟩
          let removed := if removeTab then some tab.id else none
          match ledgerLookup canceledRequests tab.id with
          | none =>
            ⟨true,
              ledgerInsert canceledRequests tab.id ⟨[options.requestId], [options.url]⟩,
              [reroute], removed, none⟩
          | some entry =>
            let cancelEarly :=
              options.requestId ∈ entry.requestIds ∨ options.url ∈ entry.urls
            let entry' : CanceledEntry :=
              ⟨addKey entry.requestIds options.requestId, addKey entry.urls options.url⟩
            let led' := ledgerUpdate canceledRequests tab.id entry'
            if cancelEarly then ⟨true, led', [], none, none⟩
            else ⟨true, led', [reroute], removed, none⟩

/-- Sequential processing of a list of navigation events for the same tab object:
threads the ledger and counts every `reloadPageInContainer` call (variant 1). -/
def runChain1 (env : NavEnv) : Ledger → List ReqOptions → Ledger × Nat
  | led, [] => (led, 0)
  | led, o :: os =>
    let out := onBeforeRequest1 env led o
    let rest := runChain1 env out.ledger os
    (rest.1, out.reroutes.length + rest.2)

/-! ## Predicates used by the stated properties -/

/-- A url whose parse succeeds with one of the three internal protocols. -/
def badSchemeURL (u : Option String) : Bool :=
  match u with
  | none => false
  | some s =>
    match parseURL s with
    | none => false
    | some parts =>
      parts.protocol = "about:" ∨ parts.protocol = "chrome:" ∨
        parts.protocol = "moz-extension:"

/-- No snapshot of the hidden-tabs list carries an internal-scheme url. -/
def noBadSchemes (l : List HiddenTab) : Prop :=
  ∀ h ∈ l, badSchemeURL h.url = false

/-- A navigation event that reaches the cancellation ledger: top-level, live tab,
an assignment for the url whose container exists, the tab in a different container,
not incognito and not exempted (the conditions of steps 1–6 of the interceptor). -/
def rerouteCandidate (env : NavEnv) (o : ReqOptions) : Bool :=
  o.frameId = 0 && o.tabId ≠ -1 &&
  (match storageAreaGetNav env.assignStorage o.url with
   | none => false
   | some ss =>
     getCookieStoreId ss.userContextId ∈ env.existingContainers &&
     (match getUserContextIdFromCookieStoreId0 env.tab.cookieStoreId with
      | none => false
      | some u => u ≠ ss.userContextId) &&
     !env.tab.incognito && !isExempted env.exemptedTabs o.url env.tab.id)

/-! ## Tab sorting (`sortTabs` / `_sortTabsInternal`, variant 1)

A window is its ordered list of tabs.  `browser.tabs.move` is modelled after the
platform semantics the source itself quotes in `moveTabsToWindow`: the tab is
removed and reinserted at the requested index, clamped to the end of the strip,
and a pinned tab can never be placed after an unpinned one nor an unpinned tab
before a pinned one.  `localeCompare` is modelled as code-point lexicographic
comparison; every property proved below only needs it to be a fixed total
preorder. -/

def tabUci (t : BTab) : Option String :=
  getUserContextIdFromCookieStoreId0 t.cookieStoreId

/-- JavaScript `Map` built by the scan loop: insertion-ordered keys, values
appended in encounter order. -/
def addToMap (m : List (String × List BTab)) (u : String) (t : BTab) :
    List (String × List BTab) :=
  if m.any fun kv => kv.1 = u then
    m.map fun kv => if kv.1 = u then (kv.1, kv.2 ++ [t]) else kv
  else m ++ [(u, [t])]

/-- The `for (const tab of tabs)` collection loop of `_sortTabsInternal`:
`break` on the first unpinned tab of the pinned pass, `++pos; continue` on pinned
tabs of the unpinned pass, skip tabs with a falsy `cookieStoreId` or no container
id, group the rest. -/
def scanPass : List BTab → Bool → Nat → List (String × List BTab) →
    Nat × List (String × List BTab)
  | [], _, pos, m => (pos, m)
  | t :: ts, pinnedTabs, pos, m =>
    if pinnedTabs && !t.pinned then (pos, m)
    else if !pinnedTabs && t.pinned then scanPass ts pinnedTabs (pos + 1) m
    else if !(jsTruthy t.cookieStoreId) then scanPass ts pinnedTabs pos m
    else
      match tabUci t with
      | none => scanPass ts pinnedTabs pos m
      | some u => scanPass ts pinnedTabs pos (addToMap m u t)

/-- Code-point lexicographic comparison (model of `localeCompare` ≤ 0). -/
def lexLe : List Char → List Char → Bool
  | [], _ => true
  | _ :: _, [] => false
  | a :: as, b :: bs =>
    if a.toNat < b.toNat then true
    else if b.toNat < a.toNat then false
    else lexLe as bs

def strLe (a b : String) : Bool := lexLe a.data b.data

def insertSortedKV (x : String × List BTab) : List (String × List BTab) →
    List (String × List BTab)
  | [] => [x]
  | y :: ys => if strLe x.1 y.1 then x :: y :: ys else y :: insertSortedKV x ys

/-- The `new Map([...map.entries()].sort(...))` step: a stable sort of the
grouped entries by key. -/
def sortKV : List (String × List BTab) → List (String × List BTab)
  | [] => []
  | x :: xs => insertSortedKV x (sortKV xs)

def eraseById : List BTab → Nat → List BTab
  | [], _ => []
  | t :: ts, i => if t.id = i then ts else t :: eraseById ts i

/-- Insertion at an index, appending when the index exceeds the length. -/
def insertAt : Nat → BTab → List BTab → List BTab
  | 0, x, l => x :: l
  | _ + 1, x, [] => [x]
  | n + 1, x, a :: l => a :: insertAt n x l

/-- Platform model of `browser.tabs.move(tabId, index)` within one window:
remove the tab, then reinsert it at `index` clamped into the pinned region for a
pinned tab and after the pinned region for an unpinned tab (and in any case no
further than the end of the strip).  A missing tab id is a no-op. -/
def jsMoveTab (l : List BTab) (tabId : Nat) (index : Nat) : List BTab :=
  match l.find? fun t => t.id = tabId with
  | none => l
  | some t =>
    let l' := eraseById l tabId
    let k := (l'.takeWhile fun t' => t'.pinned).length
    if t.pinned then insertAt (min index k) t l'
    else insertAt (max index k) t l'

/-- The move loop of `_sortTabsInternal`: `++pos; browser.tabs.move(tab.id, pos)`
for every grouped tab in sorted-group order. -/
def doMoves : List BTab → Nat → List BTab → List BTab
  | l, _, [] => l
  | l, pos, t :: ts => doMoves (jsMoveTab l t.id (pos + 1)) (pos + 1) ts

/-- Source (variant 1, `_sortTabsInternal`) for one window and one pass. -/
def sortTabsInternal (w : List BTab) (pinnedTabs : Bool) : List BTab :=
  let scanned := scanPass w pinnedTabs 0 []
  doMoves w scanned.1 ((sortKV scanned.2).map Prod.snd).flatten

/-- Source (variant 1, `sortTabs`) for one window: pinned pass then unpinned pass. -/
def sortWindow (w : List BTab) : List BTab :=
  sortTabsInternal (sortTabsInternal w true) false

/-- Source (variant 1, `sortTabs`): every window, pinned tabs first. -/
def sortTabs (ws : List (List BTab)) : List (List BTab) :=
  ws.map sortWindow

/-! Proof-side companions of the move loop.  `stepMove` is `jsMoveTab` specialized
to one homogeneous region (all-pinned or all-unpinned), and `processCore` is the
move loop over such a region. -/

def stepMove (l : List BTab) (t : BTab) (j : Nat) : List BTab :=
  insertAt (min j (eraseById l t.id).length) t (eraseById l t.id)

def processCore : List BTab → Nat → List BTab → List BTab
  | l, _, [] => l
  | l, j, t :: ts => processCore (stepMove l t (j + 1)) (j + 1) ts

/-- Grouping fold shared by both passes (the map part of `scanPass`). -/
def buildMapFrom (m : List (String × List BTab)) : List BTab → List (String × List BTab)
  | [] => m
  | t :: ts =>
    match tabUci t with
    | none => buildMapFrom m ts
    | some u => buildMapFrom (addToMap m u t) ts

/-- The canonical ordering `_sortTabsInternal` drives a region towards: its
grouped tabs, groups sorted by container id, order inside a group preserved. -/
def canonOf (l : List BTab) : List BTab :=
  ((sortKV (buildMapFrom [] l)).map Prod.snd).flatten

def NodupIds (l : List BTab) : Prop := (l.map BTab.id).Nodup

/-- Every entry of a grouped map is a nonempty group of tabs carrying the
entry's container id. -/
def mapGroupsOk (m : List (String × List BTab)) : Prop :=
  ∀ kv ∈ m, kv.2 ≠ [] ∧ ∀ t ∈ kv.2, tabUci t = some kv.1

/-- The tabs of a grouped map, in group order. -/
def flatKV (m : List (String × List BTab)) : List BTab :=
  (m.map Prod.snd).flatten

/-- The keys of a grouped map are pairwise distinct (a JavaScript `Map`
invariant). -/
def keysNodup (m : List (String × List BTab)) : Prop :=
  (m.map Prod.fst).Nodup

def allPinned (l : List BTab) : Prop := ∀ t ∈ l, t.pinned = true

def allUnpinned (l : List BTab) : Prop := ∀ t ∈ l, t.pinned = false

def allContainerTabs (l : List BTab) : Prop := ∀ t ∈ l, (tabUci t).isSome

/-! # Theorems -/

theorem isPrefixOf_append_self (l s : List Char) : l.isPrefixOf (l ++ s) = true := by
  induction l with
  | nil => simp [List.isPrefixOf]
  | cons a as ih => simp [List.isPrefixOf, ih]

theorem jsReplaceFirstList_cancel (pat rep s : List Char) :
    jsReplaceFirstList pat rep (pat ++ s) = rep ++ s := by
  cases hp : pat with
  | nil =>
    cases s with
    | nil => simp [jsReplaceFirstList]
    | cons c cs => simp [jsReplaceFirstList, List.isPrefixOf]
  | cons p ps =>
    show jsReplaceFirstList (p :: ps) rep (p :: (ps ++ s)) = rep ++ s
    have hpre : (p :: ps).isPrefixOf (p :: (ps ++ s)) = true :=
      isPrefixOf_append_self (p :: ps) s
    simp only [jsReplaceFirstList, hpre, if_true]
    have : (p :: (ps ++ s)) = (p :: ps) ++ s := by simp
    rw [this, List.drop_left]

/-- Claim C7: converting a container id to a cookie-store id by prepending the
fixed lead and then stripping it again returns the id unchanged, for every
container id string. -/
theorem cookieStoreId_roundtrip (id : String) :
    getUserContextIdFromCookieStoreId (getCookieStoreId id) = some id := by
  have hdata : (getCookieStoreId id).data = "firefox-container-".data ++ id.data := by
    simp [getCookieStoreId, String.data_append]
  have hne : ¬ getCookieStoreId id = "" := by
    intro h
    have h2 := congrArg String.data h
    rw [hdata] at h2
    simp at h2
  have hrep : jsReplaceFirst (getCookieStoreId id) "firefox-container-" "" = id := by
    unfold jsReplaceFirst
    apply String.ext
    show jsReplaceFirstList _ _ (getCookieStoreId id).data = id.data
    rw [hdata, jsReplaceFirstList_cancel]
    rfl
  have hneq : ¬ id = getCookieStoreId id := by
    intro h
    have h2 : id.data.length = (getCookieStoreId id).data.length := by rw [← h]
    rw [hdata, List.length_append] at h2
    have h18 : "firefox-container-".data.length = 18 := by decide
    omega
  simp only [getUserContextIdFromCookieStoreId, hrep]
  rw [if_neg hne, if_pos]
  exact hneq

/-- Claim C2 (counterexample): deleting container `"5"` removes both of its
`siteContainerMap@@_` assignment keys, but the key
`identitiesState@@_firefox-container-5` — whose stored value has no
`userContextId` field — survives the container-scan and is still present
afterwards, so the claim's final removal does not happen. -/
theorem deleteContainer_keeps_identitiesState :
    ("identitiesState@@_firefox-container-5", StoredVal.mk none) ∈
      deleteContainerStorage
        [("siteContainerMap@@_a.com", ⟨some "5"⟩),
         ("siteContainerMap@@_b.com", ⟨some "5"⟩),
         ("identitiesState@@_firefox-container-5", ⟨none⟩)] "5" := by decide

/-- Claim C2 (amended): deleting container `"5"` with assignments for `a.com` and
`b.com` removes exactly those two `siteContainerMap@@_` keys from storage and
leaves `identitiesState@@_firefox-container-5` in place. -/
theorem deleteContainer_removes_only_assignments :
    deleteContainerStorage
        [("siteContainerMap@@_a.com", ⟨some "5"⟩),
         ("siteContainerMap@@_b.com", ⟨some "5"⟩),
         ("identitiesState@@_firefox-container-5", ⟨none⟩)] "5" =
      [("identitiesState@@_firefox-container-5", ⟨none⟩)] := by decide

/-- Claim C10: site keys concatenate hostname and non-default port with no
separator, so `http://example.com:8080/` and `http://example.com8080/` — two
different hostnames — share one site key, and an assignment stored for either is
returned for both. -/
theorem siteKey_concat_collision :
    getSiteStoreKey (some "http://example.com:8080/") =
        some "siteContainerMap@@_example.com8080" ∧
    getSiteStoreKey (some "http://example.com8080/") =
        some "siteContainerMap@@_example.com8080" ∧
    (parseURL "http://example.com:8080/").map URLParts.hostname ≠
        (parseURL "http://example.com8080/").map URLParts.hostname ∧
    storageAreaGetNav [("siteContainerMap@@_example.com8080", ⟨"4", false⟩)]
        "http://example.com:8080/" = some ⟨"4", false⟩ ∧
    storageAreaGetNav [("siteContainerMap@@_example.com8080", ⟨"4", false⟩)]
        "http://example.com8080/" = some ⟨"4", false⟩ := by decide

/-- Claim C4: `http://example.com` and `http://example.com:80` derive the same
site key, and with `example.com` assigned to container `"3"` (which exists) a
top-level navigation of a container-`"0"` tab to `http://example.com:80/page` is
canceled with exactly one reroute whose target cookie store is
`firefox-container-3`. -/
theorem defaultPort_siteKey_reroute :
    getSiteStoreKey (some "http://example.com") =
        getSiteStoreKey (some "http://example.com:80") ∧
    (onBeforeRequest1
        ⟨⟨7, some "http://old.example.org/", some "firefox-container-0", false, none,
            2, true⟩,
          [("siteContainerMap@@_example.com", ⟨"3", false⟩)],
          ["firefox-container-3"], [], none⟩
        [] ⟨"req-1", "http://example.com:80/page", 0, 7⟩).cancel = true ∧
    (onBeforeRequest1
        ⟨⟨7, some "http://old.example.org/", some "firefox-container-0", false, none,
            2, true⟩,
          [("siteContainerMap@@_example.com", ⟨"3", false⟩)],
          ["firefox-container-3"], [], none⟩
        [] ⟨"req-1", "http://example.com:80/page", 0, 7⟩).reroutes.map
        (fun r => getCookieStoreId r.targetUserContextId) = ["firefox-container-3"] := by
  decide

/-- Claim C3 (code bug in variant 0): variant 1 rejects `hideTabs`, `getTabs` and
`moveTabsToWindow` calls that lack `cookieStoreId` synchronously with no effect,
but variant 0's `checkArgs` only constructs and discards its `Error`, so variant
0's `hideTabs` proceeds and reads and writes the container-state store under the
key `identitiesState@@_undefined` before querying tabs of
`firefox-container-false`. -/
theorem missing_argument_handling :
    hideTabs1 ⟨[], none, []⟩ ⟨none, some 1⟩ =
        ([], Except.error "hideTabs must be called with cookieStoreId argument.") ∧
    getTabs1 ⟨[], none, []⟩ ⟨none, some 1⟩ =
        ([], Except.error "getTabs must be called with cookieStoreId argument.") ∧
    moveTabsToWindow1 [] ⟨[], none, []⟩ ⟨none, some 1⟩ =
        ([], Except.error "moveTabsToWindow must be called with cookieStoreId argument.") ∧
    hideTabs0 ⟨[], none, []⟩ ⟨none, some 1⟩ =
        ([Effect.storeRead "identitiesState@@_undefined",
          Effect.storeWrite "identitiesState@@_undefined",
          Effect.tabsQuery none (some 1),
          Effect.storeWrite "identitiesState@@_undefined",
          Effect.tabsQuery (some "firefox-container-false") (some 1),
          Effect.tabsRemove], Except.ok ()) := by
  refine ⟨rfl, rfl, rfl, rfl⟩

/-- Claim C9 (counterexample): with `nofocus: true` in the options the created tab
is `active = true` even though `nofocus` is present, refuting that the tab is
active only when `nofocus` is absent (and refuting that `nofocus: true` means
unfocused). -/
theorem openNewTab_active_despite_nofocus :
    (OpenNewTabOptions.mk (some "1") (some "http://x.com/") (some true) none).nofocus ≠
        none ∧
    openNewTab ⟨some "1", some "http://x.com/", some true, none⟩ =
      Except.ok (some ⟨some "http://x.com/", true, false, "firefox-container-1"⟩) := by
  exact ⟨by decide, rfl⟩

/-- Claim C9 (amended): whenever `openNewTab` creates a tab, the tab's `active`
flag is the value of `nofocus` when that field is present and `true` when it is
absent. -/
theorem openNewTab_active_eq_nofocus (options : OpenNewTabOptions)
    (call : CreateTabCall) (h : openNewTab options = Except.ok (some call)) :
    call.active = options.nofocus.getD true := by
  obtain ⟨ouci, ourl, onf, opin⟩ := options
  revert h
  unfold openNewTab
  dsimp only
  split
  · intro h; exact absurd h (by simp)
  · intro h; exact absurd h (by simp)
  · intro h
    simp only [Except.ok.injEq, Option.some.injEq] at h
    subst h
    cases onf <;> rfl

/-- Witness for `openNewTab_active_eq_nofocus` at a concrete input. -/
theorem openNewTab_active_eq_nofocus_witness :
    (CreateTabCall.mk (some "http://x.com/") false false "firefox-container-1").active =
      (Option.getD (some false) true) :=
  openNewTab_active_eq_nofocus ⟨some "1", some "http://x.com/", some false, none⟩ _ rfl

theorem isPermissibleURL_not_badScheme (u : Option String)
    (h : isPermissibleURL u = some true) : badSchemeURL u = false := by
  cases u with
  | none => simp [isPermissibleURL] at h
  | some s =>
    by_cases hs : s = ""
    · simp [isPermissibleURL, hs] at h
    · cases hp : parseURL s with
      | none => simp [isPermissibleURL, hs, hp] at h
      | some parts =>
        simp only [isPermissibleURL, hs, if_false, hp] at h
        split at h
        · exact absurd h (by simp)
        · rename_i hbad
          simp [badSchemeURL, hp, hbad]

/-- Claim C6: `storeHidden` appends no snapshot whose url has scheme `about:`,
`chrome:` or `moz-extension:` — such open tabs are dropped — and therefore the
absence of such snapshots in the persisted `hiddenTabs` list is preserved by
`storeHidden`, the only operation that appends to it. -/
theorem storeHidden_no_internal_schemes :
    ∀ (tabsByContainer : List BTab) (prior out : List HiddenTab),
      noBadSchemes prior → storeHidden prior tabsByContainer = Except.ok out →
      noBadSchemes out := by
  intro tabsByContainer
  induction tabsByContainer with
  | nil =>
    intro prior out hp h
    unfold storeHidden storeHiddenAppend at h
    cases h
    exact hp
  | cons t ts ih =>
    intro prior out hp h
    unfold storeHidden at h ih
    cases hperm : isPermissibleURL t.url with
    | none =>
      simp only [storeHiddenAppend, hperm] at h
      exact absurd h (by simp)
    | some b =>
      cases b with
      | false =>
        simp only [storeHiddenAppend, hperm] at h
        exact ih prior out hp h
      | true =>
        simp only [storeHiddenAppend, hperm] at h
        refine ih (prior ++ [snapshotTab t]) out ?_ h
        intro x hx
        rcases List.mem_append.mp hx with hx1 | hx2
        · exact hp x hx1
        · rcases List.mem_singleton.mp hx2 with rfl
          exact isPermissibleURL_not_badScheme t.url hperm

/-- Witness for `storeHidden_no_internal_schemes`: hiding a window with an
`about:newtab` tab and an ordinary web tab snapshots only the web tab. -/
theorem storeHidden_no_internal_schemes_witness :
    noBadSchemes [HiddenTab.mk (some "http://x.com/") false false true] :=
  storeHidden_no_internal_schemes
    [⟨1, some "about:newtab", false, true, some "firefox-container-1"⟩,
     ⟨2, some "http://x.com/", false, true, some "firefox-container-1"⟩]
    [] [⟨some "http://x.com/", false, false, true⟩]
    (by intro x hx; cases hx) rfl

theorem ledgerLookup_insert_self (led : Ledger) (t : Nat) (e : CanceledEntry)
    (h : ledgerLookup led t = none) : ledgerLookup (ledgerInsert led t e) t = some e := by
  induction led with
  | nil => simp [ledgerLookup, ledgerInsert]
  | cons kv rest ih =>
    by_cases hk : kv.1 = t
    · exfalso
      unfold ledgerLookup at h
      rw [if_pos hk] at h
      exact Option.noConfusion h
    · unfold ledgerLookup at h
      rw [if_neg hk] at h
      show ledgerLookup ((kv :: rest) ++ [(t, e)]) t = some e
      rw [List.cons_append]
      unfold ledgerLookup
      rw [if_neg hk]
      exact ih h

theorem ledgerLookup_update_self (led : Ledger) (t : Nat) (e e' : CanceledEntry)
    (h : ledgerLookup led t = some e) :
    ledgerLookup (ledgerUpdate led t e') t = some e' := by
  induction led with
  | nil => exact Option.noConfusion h
  | cons kv rest ih =>
    by_cases hk : kv.1 = t
    · unfold ledgerUpdate
      rw [if_pos hk]
      unfold ledgerLookup
      rw [if_pos rfl]
    · unfold ledgerLookup at h
      rw [if_neg hk] at h
      unfold ledgerUpdate
      rw [if_neg hk]
      unfold ledgerLookup
      rw [if_neg hk]
      exact ih h

theorem mem_addKey_self (l : List String) (k : String) : k ∈ addKey l k := by
  unfold addKey
  by_cases h : k ∈ l
  · rwa [if_pos h]
  · rw [if_neg h]; exact List.mem_append_right _ (List.mem_singleton.mpr rfl)

theorem mem_addKey_of_mem (l : List String) (k k' : String) (h : k' ∈ l) :
    k' ∈ addKey l k := by
  unfold addKey
  by_cases hk : k ∈ l
  · rwa [if_pos hk]
  · rw [if_neg hk]; exact List.mem_append_left _ h

/-- Unfolding of `onBeforeRequest1` on a reroute candidate whose tab already has a
ledger entry recording this `requestId` or `url`: the redirect-echo branch. -/
theorem onBeforeRequest1_echo (env : NavEnv) (led : Ledger) (o : ReqOptions)
    (entry : CanceledEntry) (hc : rerouteCandidate env o = true)
    (hlk : ledgerLookup led env.tab.id = some entry)
    (hdup : o.requestId ∈ entry.requestIds ∨ o.url ∈ entry.urls) :
    onBeforeRequest1 env led o =
      ⟨true,
        ledgerUpdate led env.tab.id
          ⟨addKey entry.requestIds o.requestId, addKey entry.urls o.url⟩,
        [], none, none⟩ := by
  unfold rerouteCandidate at hc
  simp only [Bool.and_eq_true, decide_eq_true_eq] at hc
  obtain ⟨⟨hframe, htab⟩, hrest⟩ := hc
  unfold onBeforeRequest1
  rw [if_neg (by simp [hframe, htab])]
  cases hss : storageAreaGetNav env.assignStorage o.url with
  | none => rw [hss] at hrest; exact absurd hrest (by simp)
  | some ss =>
    rw [hss] at hrest
    cases hu : getUserContextIdFromCookieStoreId0 env.tab.cookieStoreId with
    | none => rw [hu] at hrest; simp at hrest
    | some u =>
      rw [hu] at hrest
      simp only [Bool.and_eq_true, Bool.not_eq_true', decide_eq_true_eq] at hrest
      obtain ⟨⟨⟨hcont, hne⟩, hinc⟩, hex⟩ := hrest
      simp only [hss, hu]
      rw [if_neg (by simpa using hcont)]
      rw [if_neg (by simp [hne, hinc, hex])]
      rw [hlk]
      split
      · rename_i heq
        exact Option.noConfusion heq
      · rename_i entry2 heq
        injection heq with heq2
        subst heq2
        split
        · rfl
        · rename_i hcontra
          exact absurd hdup hcontra

/-- Unfolding of `onBeforeRequest1` on a reroute candidate for a tab with no
ledger entry: the request is canceled, the entry is recorded and exactly one
`reloadPageInContainer` call is made. -/
theorem onBeforeRequest1_fresh (env : NavEnv) (led : Ledger) (o : ReqOptions)
    (hc : rerouteCandidate env o = true)
    (hlk : ledgerLookup led env.tab.id = none) :
    (onBeforeRequest1 env led o).cancel = true ∧
    (onBeforeRequest1 env led o).reroutes.length = 1 ∧
    (onBeforeRequest1 env led o).ledger =
      ledgerInsert led env.tab.id ⟨[o.requestId], [o.url]⟩ := by
  unfold rerouteCandidate at hc
  simp only [Bool.and_eq_true, decide_eq_true_eq] at hc
  obtain ⟨⟨hframe, htab⟩, hrest⟩ := hc
  unfold onBeforeRequest1
  rw [if_neg (by simp [hframe, htab])]
  cases hss : storageAreaGetNav env.assignStorage o.url with
  | none => rw [hss] at hrest; exact absurd hrest (by simp)
  | some ss =>
    rw [hss] at hrest
    cases hu : getUserContextIdFromCookieStoreId0 env.tab.cookieStoreId with
    | none => rw [hu] at hrest; simp at hrest
    | some u =>
      rw [hu] at hrest
      simp only [Bool.and_eq_true, Bool.not_eq_true', decide_eq_true_eq] at hrest
      obtain ⟨⟨⟨hcont, hne⟩, hinc⟩, hex⟩ := hrest
      simp only [hss, hu]
      rw [if_neg (by simpa using hcont)]
      rw [if_neg (by simp [hne, hinc, hex])]
      rw [hlk]
      split
      · exact ⟨rfl, rfl, rfl⟩
      · rename_i entry2 heq
        exact Option.noConfusion heq

/-- After the first cancellation, every further same-tab candidate event carrying
the recorded requestId produces no reroute: the count over the tail is zero. -/
theorem runChain1_echo_tail (env : NavEnv) (rid : String) :
    ∀ (os : List ReqOptions) (led : Ledger) (entry : CanceledEntry),
      ledgerLookup led env.tab.id = some entry →
      rid ∈ entry.requestIds →
      (∀ o ∈ os, rerouteCandidate env o = true ∧ o.requestId = rid) →
      (runChain1 env led os).2 = 0 := by
  intro os
  induction os with
  | nil => intro led entry _ _ _; rfl
  | cons o os' ih =>
    intro led entry hlk hrid hall
    obtain ⟨hc, hreq⟩ := hall o (List.mem_cons_self o os')
    have hdup : o.requestId ∈ entry.requestIds ∨ o.url ∈ entry.urls :=
      Or.inl (hreq ▸ hrid)
    have hout := onBeforeRequest1_echo env led o entry hc hlk hdup
    unfold runChain1
    rw [hout]
    simp only [List.length_nil, Nat.zero_add]
    refine ih _ _ (ledgerLookup_update_self led env.tab.id entry _ hlk) ?_
      (fun o' ho' => hall o' (List.mem_cons_of_mem o ho'))
    exact mem_addKey_of_mem _ _ _ hrid

/-- Claim C1 (amended): for a navigation event that reaches the ledger (a reroute
candidate), (a) when the tab's ledger entry already records the event's requestId
or url the request is canceled immediately with no reroute, and (b) a whole
redirect chain — a first candidate event on a fresh tab followed by candidate
events with the same requestId — produces exactly one `reloadPageInContainer`
call. -/
theorem nav_dedup_single_reroute :
    (∀ (env : NavEnv) (led : Ledger) (o : ReqOptions) (entry : CanceledEntry),
      rerouteCandidate env o = true →
      ledgerLookup led env.tab.id = some entry →
      o.requestId ∈ entry.requestIds ∨ o.url ∈ entry.urls →
      (onBeforeRequest1 env led o).cancel = true ∧
        (onBeforeRequest1 env led o).reroutes = []) ∧
    (∀ (env : NavEnv) (led : Ledger) (o₀ : ReqOptions) (os : List ReqOptions),
      ledgerLookup led env.tab.id = none →
      rerouteCandidate env o₀ = true →
      (∀ o ∈ os, rerouteCandidate env o = true ∧ o.requestId = o₀.requestId) →
      (runChain1 env led (o₀ :: os)).2 = 1) := by
  constructor
  · intro env led o entry hc hlk hdup
    rw [onBeforeRequest1_echo env led o entry hc hlk hdup]
    exact ⟨rfl, rfl⟩
  · intro env led o₀ os hlk hc hall
    obtain ⟨hcancel, hlen, hled⟩ := onBeforeRequest1_fresh env led o₀ hc hlk
    have htail := runChain1_echo_tail env o₀.requestId os
      (ledgerInsert led env.tab.id ⟨[o₀.requestId], [o₀.url]⟩)
      ⟨[o₀.requestId], [o₀.url]⟩
      (ledgerLookup_insert_self led env.tab.id _ hlk)
      (List.mem_singleton.mpr rfl) hall
    unfold runChain1
    dsimp only
    rw [hlen, hled, htail]

/-- Witness for `nav_dedup_single_reroute`: a concrete echo is canceled with no
reroute, and a concrete two-event redirect chain yields exactly one reroute. -/
theorem nav_dedup_single_reroute_witness :
    ((onBeforeRequest1
        ⟨⟨1, some "http://old.example/", some "firefox-container-0", false, none, 0,
            true⟩,
          [("siteContainerMap@@_a.com", ⟨"3", false⟩)], ["firefox-container-3"], [],
          none⟩
        [(1, ⟨["r1"], ["http://a.com/"]⟩)] ⟨"r1", "http://a.com/", 0, 1⟩).cancel =
        true ∧
      (onBeforeRequest1
        ⟨⟨1, some "http://old.example/", some "firefox-container-0", false, none, 0,
            true⟩,
          [("siteContainerMap@@_a.com", ⟨"3", false⟩)], ["firefox-container-3"], [],
          none⟩
        [(1, ⟨["r1"], ["http://a.com/"]⟩)] ⟨"r1", "http://a.com/", 0, 1⟩).reroutes =
        []) ∧
    (runChain1
        ⟨⟨1, some "http://old.example/", some "firefox-container-0", false, none, 0,
            true⟩,
          [("siteContainerMap@@_a.com", ⟨"3", false⟩),
           ("siteContainerMap@@_b.com", ⟨"3", false⟩)],
          ["firefox-container-3"], [], none⟩
        [] [⟨"r1", "http://a.com/", 0, 1⟩, ⟨"r1", "http://b.com/", 0, 1⟩]).2 = 1 :=
  ⟨nav_dedup_single_reroute.1 _ _ _ ⟨["r1"], ["http://a.com/"]⟩ (by decide) (by decide)
      (by decide),
    nav_dedup_single_reroute.2 _ _ _ [⟨"r1", "http://b.com/", 0, 1⟩] (by decide)
      (by decide) (by decide)⟩

/-- Claim C1 (counterexample): the ledger for tab 1 records requestId `r1`, yet a
later navigation event on tab 1 carrying `r1` is not canceled — it is allowed —
because its url has no site assignment, so the interceptor returns before ever
consulting the ledger. -/
theorem nav_echo_not_always_canceled :
    (ledgerLookup [(1, ⟨["r1"], ["http://assigned.example/"]⟩)] 1).map
        CanceledEntry.requestIds = some ["r1"] ∧
    (onBeforeRequest1
        ⟨⟨1, some "http://old.example/", some "firefox-container-0", false, none, 0,
            true⟩, [], [], [], none⟩
        [(1, ⟨["r1"], ["http://assigned.example/"]⟩)]
        ⟨"r1", "http://unassigned.example/", 0, 1⟩).cancel = false := by decide

/-- Claim C8 (counterexample): for a tab whose cookie store is `firefox-default`
(no container id), variant 0 cancels and reroutes while variant 1 allows the
navigation, so the two `onBeforeRequest` implementations are not equivalent. -/
theorem onBeforeRequest_variants_differ :
    onBeforeRequest0
        ⟨⟨1, some "http://old.example/", some "firefox-default", false, none, 0,
            true⟩,
          [("siteContainerMap@@_a.com", ⟨"3", false⟩)], ["firefox-container-3"], [],
          none⟩
        [] ⟨"r1", "http://a.com/", 0, 1⟩ ≠
      onBeforeRequest1
        ⟨⟨1, some "http://old.example/", some "firefox-default", false, none, 0,
            true⟩,
          [("siteContainerMap@@_a.com", ⟨"3", false⟩)], ["firefox-container-3"], [],
          none⟩
        [] ⟨"r1", "http://a.com/", 0, 1⟩ := by decide

/-- Claim C8 (amended): whenever the navigating tab's cookie store yields a
container id (the `firefox-container-` shape), the two variants make identical
decisions: same cancel result, same ledger, same reroutes, same removals. -/
theorem onBeforeRequest_variants_agree (env : NavEnv) (led : Ledger) (o : ReqOptions)
    (h : getUserContextIdFromCookieStoreId0 env.tab.cookieStoreId ≠ none) :
    onBeforeRequest0 env led o = onBeforeRequest1 env led o := by
  obtain ⟨u, hu⟩ := Option.ne_none_iff_exists'.mp h
  unfold onBeforeRequest0 onBeforeRequest1
  simp [hu]

/-- Witness for `onBeforeRequest_variants_agree` at a concrete input. -/
theorem onBeforeRequest_variants_agree_witness :
    onBeforeRequest0
        ⟨⟨1, some "http://old.example/", some "firefox-container-0", false, none, 0,
            true⟩,
          [("siteContainerMap@@_a.com", ⟨"3", false⟩)], ["firefox-container-3"], [],
          none⟩
        [] ⟨"r1", "http://a.com/", 0, 1⟩ =
      onBeforeRequest1
        ⟨⟨1, some "http://old.example/", some "firefox-container-0", false, none, 0,
            true⟩,
          [("siteContainerMap@@_a.com", ⟨"3", false⟩)], ["firefox-container-3"], [],
          none⟩
        [] ⟨"r1", "http://a.com/", 0, 1⟩ :=
  onBeforeRequest_variants_agree _ [] _ (by decide)

/-- Claim C5 (counterexample): with a default-container tab (no container id, so
it is skipped by the grouping scan but still occupies a position) between two
container tabs, running the sort twice gives a different ordering than running it
once — `sortTabs` is not idempotent on every configuration. -/
theorem sortTabs_not_idempotent :
    sortTabs (sortTabs [[⟨1, none, false, false, some "firefox-container-2"⟩,
        ⟨2, none, false, false, some "firefox-default"⟩,
        ⟨3, none, false, false, some "firefox-container-1"⟩]]) ≠
      sortTabs [[⟨1, none, false, false, some "firefox-container-2"⟩,
        ⟨2, none, false, false, some "firefox-default"⟩,
        ⟨3, none, false, false, some "firefox-container-1"⟩]] := by decide

/-! Auxiliary list lemmas for the sorting model. -/

theorem insertAt_length_le (n : Nat) (x : BTab) (l : List BTab) (h : l.length ≤ n) :
    insertAt n x l = l ++ [x] := by
  induction l generalizing n with
  | nil => cases n <;> rfl
  | cons a as ih =>
    cases n with
    | zero => simp at h
    | succ m =>
      simp only [insertAt, List.cons_append, List.append_eq]
      rw [ih m (by simpa using h)]

theorem insertAt_append_left (n : Nat) (x : BTab) (A B : List BTab)
    (h : n ≤ A.length) : insertAt n x (A ++ B) = insertAt n x A ++ B := by
  induction A generalizing n with
  | nil =>
    have : n = 0 := Nat.le_zero.mp h
    subst this
    cases B <;> rfl
  | cons a as ih =>
    cases n with
    | zero => rfl
    | succ m =>
      simp only [List.cons_append, insertAt, List.append_eq]
      rw [ih m (by simpa using h)]

theorem insertAt_append_right (n : Nat) (x : BTab) (A B : List BTab)
    (h : A.length ≤ n) : insertAt n x (A ++ B) = A ++ insertAt (n - A.length) x B := by
  induction A generalizing n with
  | nil => simp
  | cons a as ih =>
    cases n with
    | zero => simp at h
    | succ m =>
      simp only [List.cons_append, insertAt, List.append_eq]
      rw [ih m (by simpa using h)]
      simp [Nat.succ_sub_succ]

theorem insertAt_clamp (n : Nat) (x : BTab) (l : List BTab) :
    insertAt n x l = insertAt (min n l.length) x l := by
  by_cases h : n ≤ l.length
  · rw [Nat.min_eq_left h]
  · have h2 : l.length ≤ n := Nat.le_of_not_le h
    rw [Nat.min_eq_right h2, insertAt_length_le _ _ _ h2,
      insertAt_length_le _ _ _ (Nat.le_refl _)]

theorem insertAt_perm (n : Nat) (x : BTab) (l : List BTab) :
    List.Perm (insertAt n x l) (x :: l) := by
  induction l generalizing n with
  | nil => cases n <;> exact List.Perm.refl _
  | cons a as ih =>
    cases n with
    | zero => exact List.Perm.refl _
    | succ m =>
      show List.Perm (a :: insertAt m x as) (x :: a :: as)
      exact ((ih m).cons a).trans (List.Perm.swap x a as)

theorem eraseById_append_not_mem (A B : List BTab) (i : Nat)
    (h : ∀ t ∈ A, t.id ≠ i) : eraseById (A ++ B) i = A ++ eraseById B i := by
  induction A with
  | nil => rfl
  | cons a as ih =>
    simp only [List.cons_append, eraseById, List.append_eq]
    rw [if_neg (h a (List.mem_cons_self a as)), ih fun t ht => h t (List.mem_cons_of_mem a ht)]

theorem eraseById_append_left (A B : List BTab) (i : Nat) (h : ∃ a ∈ A, a.id = i) :
    eraseById (A ++ B) i = eraseById A i ++ B := by
  induction A with
  | nil =>
    rcases h with ⟨a, ha, _⟩
    cases ha
  | cons a as ih =>
    by_cases hai : a.id = i
    · simp [eraseById, hai]
    · simp only [List.cons_append, eraseById, if_neg hai, List.append_eq]
      rcases h with ⟨b, hb, hbi⟩
      rcases List.mem_cons.mp hb with rfl | hbs
      · exact absurd hbi hai
      · rw [ih ⟨b, hbs, hbi⟩]

theorem eraseById_middle (A B : List BTab) (u : BTab)
    (h : ∀ t ∈ A, t.id ≠ u.id) : eraseById (A ++ u :: B) u.id = A ++ B := by
  rw [eraseById_append_not_mem A _ _ h]
  simp [eraseById]

theorem nodupIds_perm {l m : List BTab} (h : List.Perm l m) (hn : NodupIds l) :
    NodupIds m :=
  ((h.map BTab.id).nodup_iff).mp hn

theorem nodupIds_middle_not_mem (X D : List BTab) (y : BTab)
    (h : NodupIds (X ++ y :: D)) : ∀ t ∈ X, t.id ≠ y.id := by
  intro t ht he
  unfold NodupIds at h
  rw [List.map_append, List.map_cons] at h
  have hperm : List.Perm (X.map BTab.id ++ y.id :: D.map BTab.id)
      (y.id :: (X.map BTab.id ++ D.map BTab.id)) := List.perm_middle
  have h2 := hperm.nodup_iff.mp h
  have h3 : y.id ∉ X.map BTab.id ++ D.map BTab.id := (List.nodup_cons.mp h2).1
  apply h3
  apply List.mem_append_left
  rw [← he]
  exact List.mem_map_of_mem BTab.id ht

theorem nodupIds_tail {a : BTab} {as : List BTab} (h : NodupIds (a :: as)) :
    NodupIds as :=
  (List.nodup_cons.mp h).2

theorem eq_of_id_eq_head (a t : BTab) (as : List BTab) (hn : NodupIds (a :: as))
    (ht : t ∈ a :: as) (ha : a.id = t.id) : t = a := by
  rcases List.mem_cons.mp ht with h1 | h2
  · exact h1
  · exfalso
    have h3 : a.id ∉ as.map BTab.id := (List.nodup_cons.mp hn).1
    apply h3
    rw [ha]
    exact List.mem_map_of_mem BTab.id h2

theorem eraseById_perm (l : List BTab) (t : BTab) (ht : t ∈ l) (hn : NodupIds l) :
    List.Perm l (t :: eraseById l t.id) := by
  induction l with
  | nil => cases ht
  | cons a as ih =>
    by_cases ha : a.id = t.id
    · have hta : t = a := eq_of_id_eq_head a t as hn ht ha
      subst hta
      simp only [eraseById, if_pos ha]
      exact List.Perm.refl _
    · have hts : t ∈ as := by
        rcases List.mem_cons.mp ht with rfl | h2
        · exact absurd rfl ha
        · exact h2
      simp only [eraseById, if_neg ha]
      exact ((ih hts (nodupIds_tail hn)).cons a).trans (List.Perm.swap t a _)

theorem stepMove_perm (l : List BTab) (t : BTab) (j : Nat) (ht : t ∈ l)
    (hn : NodupIds l) : List.Perm (stepMove l t j) l := by
  unfold stepMove
  exact (insertAt_perm _ t _).trans (eraseById_perm l t ht hn).symm

theorem find?_eq_of_mem_nodup (l : List BTab) (t : BTab) (ht : t ∈ l)
    (hn : NodupIds l) : (l.find? fun x => x.id = t.id) = some t := by
  induction l with
  | nil => cases ht
  | cons a as ih =>
    by_cases ha : a.id = t.id
    · have hta : t = a := eq_of_id_eq_head a t as hn ht ha
      subst hta
      exact List.find?_cons_of_pos _ (by simp)
    · have hts : t ∈ as := by
        rcases List.mem_cons.mp ht with rfl | h2
        · exact absurd rfl ha
        · exact h2
      rw [List.find?_cons_of_neg _ (by simpa using ha)]
      exact ih hts (nodupIds_tail hn)

theorem insertAt_zero (x : BTab) (l : List BTab) : insertAt 0 x l = x :: l := by
  cases l <;> rfl

/-- Invariant of the move loop on a region whose tabs are all moved: after the
moves so far the processed tabs sit in order in front, the last processed tab
`tj` sits at position `|A| + |B| + 1`, and one still-unprocessed tab `u` sits
somewhere before it; processing the remaining moves `rest` (a permutation of
`u :: Y`) yields exactly the target order. -/
theorem processCore_aux :
    ∀ (rest A B Y : List BTab) (tj u : BTab),
      NodupIds (A ++ u :: (B ++ tj :: Y)) →
      List.Perm (u :: Y) rest →
      processCore (A ++ u :: (B ++ tj :: Y)) (A.length + B.length + 1) rest =
        (A ++ B) ++ tj :: rest := by
  intro rest
  induction rest with
  | nil =>
    intro A B Y tj u hn hperm
    exact absurd hperm.length_eq (by simp)
  | cons t' rest' ih =>
    intro A B Y tj u hn hperm
    have hmem : t' ∈ u :: Y := hperm.mem_iff.mpr (List.mem_cons_self t' rest')
    show processCore
        (stepMove (A ++ u :: (B ++ tj :: Y)) t' (A.length + B.length + 1 + 1))
        (A.length + B.length + 1 + 1) rest' = (A ++ B) ++ tj :: t' :: rest'
    rcases List.mem_cons.mp hmem with rfl | hY
    · -- the moved tab is the stray `u`
      have hYrest : List.Perm Y rest' := hperm.cons_inv
      have hAne : ∀ x ∈ A, x.id ≠ t'.id :=
        nodupIds_middle_not_mem A (B ++ tj :: Y) t' hn
      have herase : eraseById (A ++ t' :: (B ++ tj :: Y)) t'.id = A ++ (B ++ tj :: Y) :=
        eraseById_middle A (B ++ tj :: Y) t' hAne
      unfold stepMove
      rw [herase]
      cases Y with
      | nil =>
        have hrest' : rest' = [] := hYrest.symm.eq_nil
        subst hrest'
        have hlen : (A ++ (B ++ tj :: ([] : List BTab))).length ≤
            min (A.length + B.length + 1 + 1)
              (A ++ (B ++ tj :: ([] : List BTab))).length := by
          simp
          omega
        rw [insertAt_length_le _ _ _ hlen]
        show (A ++ (B ++ [tj])) ++ [t'] = (A ++ B) ++ tj :: t' :: []
        simp
      | cons y Y' =>
        have hle : A.length + B.length + 1 + 1 ≤ (A ++ (B ++ tj :: y :: Y')).length := by
          simp
          omega
        rw [Nat.min_eq_left hle]
        have hshape : A ++ (B ++ tj :: y :: Y') = (A ++ (B ++ [tj, y])) ++ Y' := by simp
        rw [hshape]
        have hpre : (A ++ (B ++ [tj, y]) : List BTab).length ≤
            A.length + B.length + 1 + 1 := by simp; omega
        rw [insertAt_append_right _ _ _ _ hpre]
        have hsub : A.length + B.length + 1 + 1 -
            (A ++ (B ++ [tj, y]) : List BTab).length = 0 := by simp; omega
        rw [hsub, insertAt_zero]
        have e1 : (A ++ (B ++ [tj])) ++ y :: ([] ++ t' :: Y')
            = (A ++ (B ++ [tj, y])) ++ t' :: Y' := by simp
        have hn2 : NodupIds ((A ++ (B ++ [tj])) ++ y :: ([] ++ t' :: Y')) := by
          refine nodupIds_perm ?_ hn
          rw [e1]
          have p1 : List.Perm (A ++ t' :: (B ++ tj :: y :: Y'))
              (t' :: (A ++ (B ++ tj :: y :: Y'))) := List.perm_middle
          rw [hshape] at p1
          exact p1.trans List.perm_middle.symm
        have hIH := ih (A ++ (B ++ [tj])) [] Y' t' y hn2 hYrest
        have ecount : (A ++ (B ++ [tj]) : List BTab).length +
            ([] : List BTab).length + 1 = A.length + B.length + 1 + 1 := by
          simp
          omega
        rw [ecount, e1] at hIH
        rw [hIH]
        simp
    · -- the moved tab sits inside `Y`
      obtain ⟨C, D, rfl⟩ := List.append_of_mem hY
      have hshape : A ++ u :: (B ++ tj :: (C ++ t' :: D))
          = (A ++ u :: (B ++ tj :: C)) ++ t' :: D := by simp
      have hXne : ∀ x ∈ A ++ u :: (B ++ tj :: C), x.id ≠ t'.id := by
        apply nodupIds_middle_not_mem _ D t'
        rw [← hshape]
        exact hn
      have herase : eraseById (A ++ u :: (B ++ tj :: (C ++ t' :: D))) t'.id
          = (A ++ u :: (B ++ tj :: C)) ++ D := by
        rw [hshape]
        exact eraseById_middle _ _ _ hXne
      unfold stepMove
      rw [herase]
      have hle : A.length + B.length + 1 + 1 ≤
          ((A ++ u :: (B ++ tj :: C)) ++ D).length := by
        simp
        omega
      rw [Nat.min_eq_left hle]
      have hshape2 : (A ++ u :: (B ++ tj :: C)) ++ D
          = (A ++ u :: (B ++ [tj])) ++ (C ++ D) := by simp
      rw [hshape2]
      have hpre : (A ++ u :: (B ++ [tj]) : List BTab).length ≤
          A.length + B.length + 1 + 1 := by simp; omega
      rw [insertAt_append_right _ _ _ _ hpre]
      have hsub : A.length + B.length + 1 + 1 -
          (A ++ u :: (B ++ [tj]) : List BTab).length = 0 := by simp; omega
      rw [hsub, insertAt_zero]
      have elist : (A ++ u :: (B ++ [tj])) ++ t' :: (C ++ D)
          = A ++ u :: ((B ++ [tj]) ++ t' :: (C ++ D)) := by simp
      have hn2 : NodupIds (A ++ u :: ((B ++ [tj]) ++ t' :: (C ++ D))) := by
        refine nodupIds_perm ?_ hn
        have ht : List.Perm (B ++ tj :: (C ++ t' :: D)) ((B ++ [tj]) ++ t' :: (C ++ D)) := by
          have q1 : B ++ tj :: (C ++ t' :: D) = (B ++ tj :: C) ++ t' :: D := by simp
          have q2 : (B ++ [tj]) ++ (C ++ D) = (B ++ tj :: C) ++ D := by simp
          have m1 : List.Perm ((B ++ tj :: C) ++ t' :: D)
              (t' :: ((B ++ tj :: C) ++ D)) := List.perm_middle
          have m2 : List.Perm ((B ++ [tj]) ++ t' :: (C ++ D))
              (t' :: ((B ++ [tj]) ++ (C ++ D))) := List.perm_middle
          rw [q2] at m2
          rw [q1]
          exact m1.trans m2.symm
        have e5 : A ++ u :: (B ++ tj :: (C ++ t' :: D))
            = (A ++ [u]) ++ (B ++ tj :: (C ++ t' :: D)) := by simp
        have e6 : A ++ u :: ((B ++ [tj]) ++ t' :: (C ++ D))
            = (A ++ [u]) ++ ((B ++ [tj]) ++ t' :: (C ++ D)) := by simp
        rw [e5, e6]
        exact List.Perm.append_left (A ++ [u]) ht
      have hperm2 : List.Perm (u :: (C ++ D)) rest' := by
        have hmid : List.Perm (u :: (C ++ t' :: D)) (t' :: (u :: (C ++ D))) := by
          have q3 : u :: (C ++ t' :: D) = (u :: C) ++ t' :: D := by simp
          have q4 : t' :: ((u :: C) ++ D) = t' :: (u :: (C ++ D)) := by simp
          rw [q3, ← q4]
          exact List.perm_middle
        exact (hmid.symm.trans hperm).cons_inv
      have hIH := ih A (B ++ [tj]) (C ++ D) t' u hn2 hperm2
      have ecount : A.length + (B ++ [tj] : List BTab).length + 1
          = A.length + B.length + 1 + 1 := by simp; omega
      rw [ecount] at hIH
      rw [← elist] at hIH
      rw [hIH]
      simp

/-- The move loop drives a fully-grouped region to the target order: moving the
tabs of `T` to positions `1, 2, …` in turn rearranges any permutation `R` of `T`
into exactly `T`. -/
theorem processCore_canon (R T : List BTab) (hp : List.Perm R T) (hn : NodupIds R) :
    processCore R 0 T = T := by
  cases T with
  | nil =>
    have h0 : R = [] := hp.eq_nil
    subst h0
    rfl
  | cons t rest =>
    show processCore (stepMove R t 1) 1 rest = t :: rest
    have htR : t ∈ R := hp.mem_iff.mpr (List.mem_cons_self t rest)
    have hRE : List.Perm R (t :: eraseById R t.id) := eraseById_perm R t htR hn
    have hE : List.Perm (eraseById R t.id) rest := (hRE.symm.trans hp).cons_inv
    unfold stepMove
    cases hEc : eraseById R t.id with
    | nil =>
      rw [hEc] at hE
      have hrest : rest = [] := hE.symm.eq_nil
      subst hrest
      rfl
    | cons x R'' =>
      rw [hEc] at hE
      have hmin : min 1 (x :: R'').length = 1 := by simp
      rw [hmin]
      have hins : insertAt 1 t (x :: R'') = x :: t :: R'' := rfl
      rw [hins]
      have hn2 : NodupIds (([] : List BTab) ++ x :: (([] : List BTab) ++ t :: R'')) := by
        simp only [List.nil_append]
        refine nodupIds_perm ?_ hn
        have h1 : List.Perm R (t :: x :: R'') := by rw [← hEc]; exact hRE
        exact h1.trans (List.Perm.swap x t R'')
      have hIH := processCore_aux rest [] [] R'' t x hn2 hE
      simpa using hIH

theorem takeWhile_parts (P U : List BTab) (hP : allPinned P) (hU : allUnpinned U) :
    ((P ++ U).takeWhile fun t => t.pinned) = P := by
  induction P with
  | nil =>
    cases U with
    | nil => rfl
    | cons u us => simp [List.takeWhile_cons, hU u (List.mem_cons_self u us)]
  | cons p ps ih =>
    simp only [List.cons_append, List.takeWhile_cons, hP p (List.mem_cons_self p ps),
      if_true]
    rw [ih fun t ht => hP t (List.mem_cons_of_mem p ht)]

theorem eraseById_subset (l : List BTab) (i : Nat) : ∀ t ∈ eraseById l i, t ∈ l := by
  induction l with
  | nil => intro t ht; cases ht
  | cons a as ih =>
    intro t ht
    by_cases hai : a.id = i
    · simp only [eraseById, if_pos hai] at ht
      exact List.mem_cons_of_mem a ht
    · simp only [eraseById, if_neg hai] at ht
      rcases List.mem_cons.mp ht with rfl | h2
      · exact List.mem_cons_self t as
      · exact List.mem_cons_of_mem a (ih t h2)

theorem nodupIds_append_left {A B : List BTab} (h : NodupIds (A ++ B)) : NodupIds A := by
  unfold NodupIds at h ⊢
  rw [List.map_append] at h
  exact (List.nodup_append.mp h).1

theorem nodupIds_disjoint {A B : List BTab} (h : NodupIds (A ++ B)) :
    ∀ a ∈ A, ∀ b ∈ B, a.id ≠ b.id := by
  unfold NodupIds at h
  rw [List.map_append] at h
  have hd := (List.nodup_append.mp h).2.2
  intro a ha b hb he
  exact hd (List.mem_map_of_mem _ ha) (he ▸ List.mem_map_of_mem _ hb)

theorem jsMoveTab_pinned_region (A U : List BTab) (t : BTab) (j : Nat)
    (hA : allPinned A) (hU : allUnpinned U) (hn : NodupIds (A ++ U)) (ht : t ∈ A) :
    jsMoveTab (A ++ U) t.id j = stepMove A t j ++ U := by
  unfold jsMoveTab
  rw [find?_eq_of_mem_nodup (A ++ U) t (List.mem_append_left U ht) hn]
  show (let l' := eraseById (A ++ U) t.id
    let k := (l'.takeWhile fun t' => t'.pinned).length
    if t.pinned then insertAt (min j k) t l' else insertAt (max j k) t l') =
    stepMove A t j ++ U
  rw [eraseById_append_left A U t.id ⟨t, ht, rfl⟩]
  have hA' : allPinned (eraseById A t.id) := fun x hx => hA x (eraseById_subset A t.id x hx)
  show (if t.pinned then
      insertAt (min j ((eraseById A t.id ++ U).takeWhile fun t' => t'.pinned).length) t
        (eraseById A t.id ++ U)
    else insertAt (max j ((eraseById A t.id ++ U).takeWhile fun t' => t'.pinned).length) t
        (eraseById A t.id ++ U)) = stepMove A t j ++ U
  rw [takeWhile_parts _ U hA' hU, hA t ht, if_pos rfl]
  rw [insertAt_append_left _ _ _ _ (Nat.min_le_right _ _)]
  rfl

theorem jsMoveTab_unpinned_region (P B : List BTab) (t : BTab) (j : Nat)
    (hP : allPinned P) (hB : allUnpinned B) (hn : NodupIds (P ++ B)) (ht : t ∈ B)
    (hj : P.length ≤ j) :
    jsMoveTab (P ++ B) t.id j = P ++ stepMove B t (j - P.length) := by
  unfold jsMoveTab
  rw [find?_eq_of_mem_nodup (P ++ B) t (List.mem_append_right P ht) hn]
  show (let l' := eraseById (P ++ B) t.id
    let k := (l'.takeWhile fun t' => t'.pinned).length
    if t.pinned then insertAt (min j k) t l' else insertAt (max j k) t l') =
    P ++ stepMove B t (j - P.length)
  rw [eraseById_append_not_mem P B t.id fun a ha => nodupIds_disjoint hn a ha t ht]
  have hB' : allUnpinned (eraseById B t.id) := fun x hx => hB x (eraseById_subset B t.id x hx)
  show (if t.pinned then
      insertAt (min j ((P ++ eraseById B t.id).takeWhile fun t' => t'.pinned).length) t
        (P ++ eraseById B t.id)
    else insertAt (max j ((P ++ eraseById B t.id).takeWhile fun t' => t'.pinned).length) t
        (P ++ eraseById B t.id)) = P ++ stepMove B t (j - P.length)
  rw [takeWhile_parts P _ hP hB', hB t ht]
  rw [if_neg (by simp)]
  rw [Nat.max_eq_left hj]
  rw [insertAt_append_right _ _ _ _ hj]
  rw [insertAt_clamp]
  rfl

theorem doMoves_pinned_region :
    ∀ (M A U : List BTab) (pos : Nat), allPinned A → allUnpinned U →
      NodupIds (A ++ U) → (∀ m ∈ M, m ∈ A) →
      doMoves (A ++ U) pos M = processCore A pos M ++ U := by
  intro M
  induction M with
  | nil => intro A U pos _ _ _ _; rfl
  | cons m M' ih =>
    intro A U pos hA hU hn hM
    show doMoves (jsMoveTab (A ++ U) m.id (pos + 1)) (pos + 1) M'
        = processCore (stepMove A m (pos + 1)) (pos + 1) M' ++ U
    have hmA : m ∈ A := hM m (List.mem_cons_self m M')
    rw [jsMoveTab_pinned_region A U m (pos + 1) hA hU hn hmA]
    have hperm := stepMove_perm A m (pos + 1) hmA (nodupIds_append_left hn)
    refine ih (stepMove A m (pos + 1)) U (pos + 1) ?_ hU ?_ ?_
    · exact fun x hx => hA x (hperm.mem_iff.mp hx)
    · exact nodupIds_perm (hperm.symm.append_right U) hn
    · exact fun x hx => hperm.mem_iff.mpr (hM x (List.mem_cons_of_mem m hx))

theorem doMoves_unpinned_region :
    ∀ (M P B : List BTab) (pos : Nat), allPinned P → allUnpinned B →
      NodupIds (P ++ B) → (∀ m ∈ M, m ∈ B) → P.length ≤ pos →
      doMoves (P ++ B) pos M = P ++ processCore B (pos - P.length) M := by
  intro M
  induction M with
  | nil => intro P B pos _ _ _ _ _; rfl
  | cons m M' ih =>
    intro P B pos hP hB hn hM hpos
    show doMoves (jsMoveTab (P ++ B) m.id (pos + 1)) (pos + 1) M'
        = P ++ processCore (stepMove B m (pos - P.length + 1)) (pos - P.length + 1) M'
    have hmB : m ∈ B := hM m (List.mem_cons_self m M')
    have harith : pos + 1 - P.length = pos - P.length + 1 := by omega
    rw [jsMoveTab_unpinned_region P B m (pos + 1) hP hB hn hmB
      (Nat.le_trans hpos (Nat.le_succ pos)), harith]
    have hperm := stepMove_perm B m (pos - P.length + 1) hmB
      (nodupIds_perm (List.perm_append_comm) hn |> nodupIds_append_left)
    have hIH := ih P (stepMove B m (pos - P.length + 1)) (pos + 1) hP
      (fun x hx => hB x (hperm.mem_iff.mp hx))
      (nodupIds_perm (hperm.symm.append_left P) hn)
      (fun x hx => hperm.mem_iff.mpr (hM x (List.mem_cons_of_mem m hx)))
      (Nat.le_trans hpos (Nat.le_succ pos))
    rw [harith] at hIH
    exact hIH

theorem lexLe_cons_of_lt {x y : Char} {xs ys : List Char} (h : x.toNat < y.toNat) :
    lexLe (x :: xs) (y :: ys) = true := by
  unfold lexLe
  rw [if_pos h]

theorem lexLe_cons_of_eq {x y : Char} {xs ys : List Char} (h : x.toNat = y.toNat)
    (ht : lexLe xs ys = true) : lexLe (x :: xs) (y :: ys) = true := by
  unfold lexLe
  rw [if_neg (by omega), if_neg (by omega)]
  exact ht

theorem lexLe_cons_elim {x y : Char} {xs ys : List Char}
    (h : lexLe (x :: xs) (y :: ys) = true) :
    x.toNat < y.toNat ∨ (x.toNat = y.toNat ∧ lexLe xs ys = true) := by
  unfold lexLe at h
  by_cases h1 : x.toNat < y.toNat
  · exact Or.inl h1
  · rw [if_neg h1] at h
    by_cases h2 : y.toNat < x.toNat
    · rw [if_pos h2] at h
      exact absurd h (by simp)
    · rw [if_neg h2] at h
      exact Or.inr ⟨by omega, h⟩

theorem lexLe_total : ∀ a b : List Char, lexLe a b = true ∨ lexLe b a = true := by
  intro a
  induction a with
  | nil => intro b; exact Or.inl rfl
  | cons c cs ih =>
    intro b
    cases b with
    | nil => exact Or.inr rfl
    | cons d ds =>
      by_cases h1 : c.toNat < d.toNat
      · exact Or.inl (lexLe_cons_of_lt h1)
      · by_cases h2 : d.toNat < c.toNat
        · exact Or.inr (lexLe_cons_of_lt h2)
        · rcases ih ds with h | h
          · exact Or.inl (lexLe_cons_of_eq (by omega) h)
          · exact Or.inr (lexLe_cons_of_eq (by omega) h)

theorem lexLe_trans : ∀ a b c : List Char, lexLe a b = true → lexLe b c = true →
    lexLe a c = true := by
  intro a
  induction a with
  | nil => intro b c _ _; rfl
  | cons x xs ih =>
    intro b c hab hbc
    cases b with
    | nil => exact absurd hab (by simp [lexLe])
    | cons y ys =>
      cases c with
      | nil => exact absurd hbc (by simp [lexLe])
      | cons z zs =>
        rcases lexLe_cons_elim hab with h1 | ⟨h1, h1'⟩
        · rcases lexLe_cons_elim hbc with h2 | ⟨h2, h2'⟩
          · exact lexLe_cons_of_lt (by omega)
          · exact lexLe_cons_of_lt (by omega)
        · rcases lexLe_cons_elim hbc with h2 | ⟨h2, h2'⟩
          · exact lexLe_cons_of_lt (by omega)
          · exact lexLe_cons_of_eq (by omega) (ih ys zs h1' h2')

theorem strLe_total (a b : String) : strLe a b = true ∨ strLe b a = true :=
  lexLe_total a.data b.data

theorem strLe_trans {a b c : String} (h1 : strLe a b = true) (h2 : strLe b c = true) :
    strLe a c = true :=
  lexLe_trans a.data b.data c.data h1 h2

theorem insertSortedKV_perm (x : String × List BTab) :
    ∀ l, List.Perm (insertSortedKV x l) (x :: l) := by
  intro l
  induction l with
  | nil => exact List.Perm.refl _
  | cons y ys ih =>
    unfold insertSortedKV
    by_cases h : strLe x.1 y.1 = true
    · rw [if_pos h]
    · rw [if_neg h]
      exact (ih.cons y).trans (List.Perm.swap x y ys)

theorem sortKV_perm : ∀ l, List.Perm (sortKV l) l := by
  intro l
  induction l with
  | nil => exact List.Perm.refl _
  | cons x xs ih =>
    unfold sortKV
    exact (insertSortedKV_perm x (sortKV xs)).trans (ih.cons x)

theorem insertSortedKV_sorted (x : String × List BTab) :
    ∀ l, List.Pairwise (fun a b => strLe a.1 b.1 = true) l →
      List.Pairwise (fun a b => strLe a.1 b.1 = true) (insertSortedKV x l) := by
  intro l
  induction l with
  | nil => intro _; exact List.pairwise_singleton _ x
  | cons y ys ih =>
    intro hp
    unfold insertSortedKV
    by_cases h : strLe x.1 y.1 = true
    · rw [if_pos h]
      refine List.Pairwise.cons ?_ hp
      intro b hb
      rcases List.mem_cons.mp hb with rfl | hbs
      · exact h
      · exact strLe_trans h ((List.pairwise_cons.mp hp).1 b hbs)
    · rw [if_neg h]
      have hyx : strLe y.1 x.1 = true := by
        rcases strLe_total x.1 y.1 with h1 | h1
        · exact absurd h1 h
        · exact h1
      refine List.Pairwise.cons ?_ (ih (List.pairwise_cons.mp hp).2)
      intro b hb
      have hb2 : b ∈ x :: ys := (insertSortedKV_perm x ys).mem_iff.mp hb
      rcases List.mem_cons.mp hb2 with rfl | hbs
      · exact hyx
      · exact (List.pairwise_cons.mp hp).1 b hbs

theorem sortKV_sorted : ∀ l, List.Pairwise (fun a b => strLe a.1 b.1 = true) (sortKV l) := by
  intro l
  induction l with
  | nil => exact List.Pairwise.nil
  | cons x xs ih => exact insertSortedKV_sorted x (sortKV xs) ih

theorem sortKV_eq_of_sorted :
    ∀ l, List.Pairwise (fun a b => strLe a.1 b.1 = true) l → sortKV l = l := by
  intro l
  induction l with
  | nil => intro _; rfl
  | cons x xs ih =>
    intro hp
    unfold sortKV
    rw [ih (List.pairwise_cons.mp hp).2]
    cases xs with
    | nil => rfl
    | cons y ys =>
      unfold insertSortedKV
      rw [if_pos ((List.pairwise_cons.mp hp).1 y (List.mem_cons_self y ys))]

theorem tabUci_truthy (t : BTab) (h : (tabUci t).isSome) :
    jsTruthy t.cookieStoreId = true := by
  unfold tabUci getUserContextIdFromCookieStoreId0 at h
  cases hc : t.cookieStoreId with
  | none => rw [hc] at h; simp at h
  | some s =>
    rw [hc] at h
    dsimp only at h
    unfold getUserContextIdFromCookieStoreId at h
    by_cases hs : s = ""
    · rw [if_pos hs] at h; simp at h
    · simp [jsTruthy, hs]

theorem buildMapFrom_cons_some {t : BTab} {u : String} (h : tabUci t = some u)
    (m : List (String × List BTab)) (ts : List BTab) :
    buildMapFrom m (t :: ts) = buildMapFrom (addToMap m u t) ts := by
  simp only [buildMapFrom]
  rw [h]

theorem scanPass_pinned :
    ∀ (P U : List BTab), allPinned P → allContainerTabs P → allUnpinned U →
      ∀ (pos : Nat) (m : List (String × List BTab)),
        scanPass (P ++ U) true pos m = (pos, buildMapFrom m P) := by
  intro P
  induction P with
  | nil =>
    intro U _ _ hU pos m
    cases U with
    | nil => rfl
    | cons u us => simp [scanPass, hU u (List.mem_cons_self u us), buildMapFrom]
  | cons p ps ih =>
    intro U hP hPu hU pos m
    have hpu := hPu p (List.mem_cons_self p ps)
    obtain ⟨u, hu⟩ := Option.isSome_iff_exists.mp hpu
    have htr := tabUci_truthy p hpu
    show scanPass (p :: (ps ++ U)) true pos m = (pos, buildMapFrom m (p :: ps))
    unfold scanPass
    rw [hP p (List.mem_cons_self p ps), htr, hu]
    simp only [Bool.not_true, Bool.and_false, Bool.false_and, Bool.and_true, if_false,
      Bool.not_false, ite_false, ite_true]
    show scanPass (ps ++ U) true pos (addToMap m u p) = (pos, buildMapFrom m (p :: ps))
    rw [ih U (fun t ht => hP t (List.mem_cons_of_mem p ht))
      (fun t ht => hPu t (List.mem_cons_of_mem p ht)) hU pos (addToMap m u p)]
    rw [buildMapFrom_cons_some hu]

theorem scanPass_unpinned_tail :
    ∀ (U : List BTab), allUnpinned U → allContainerTabs U →
      ∀ (pos : Nat) (m : List (String × List BTab)),
        scanPass U false pos m = (pos, buildMapFrom m U) := by
  intro U
  induction U with
  | nil => intro _ _ pos m; rfl
  | cons u us ih =>
    intro hU hUu pos m
    have hiu := hUu u (List.mem_cons_self u us)
    obtain ⟨w, hw⟩ := Option.isSome_iff_exists.mp hiu
    have htr := tabUci_truthy u hiu
    unfold scanPass
    rw [hU u (List.mem_cons_self u us), htr, hw]
    simp only [Bool.and_false, Bool.false_and, if_false, Bool.not_false, Bool.and_true,
      ite_false, ite_true, Bool.not_true]
    show scanPass us false pos (addToMap m w u) = (pos, buildMapFrom m (u :: us))
    rw [ih (fun t ht => hU t (List.mem_cons_of_mem u ht))
      (fun t ht => hUu t (List.mem_cons_of_mem u ht)) pos (addToMap m w u)]
    rw [buildMapFrom_cons_some hw]

theorem scanPass_unpinned :
    ∀ (P U : List BTab), allPinned P → allUnpinned U → allContainerTabs U →
      ∀ (pos : Nat) (m : List (String × List BTab)),
        scanPass (P ++ U) false pos m = (pos + P.length, buildMapFrom m U) := by
  intro P
  induction P with
  | nil =>
    intro U _ hU hUu pos m
    simpa using scanPass_unpinned_tail U hU hUu pos m
  | cons p ps ih =>
    intro U hP hU hUu pos m
    show scanPass (p :: (ps ++ U)) false pos m = (pos + (p :: ps).length, buildMapFrom m U)
    unfold scanPass
    rw [hP p (List.mem_cons_self p ps)]
    simp only [Bool.false_and, if_false, Bool.and_true, ite_false, ite_true,
      Bool.not_false]
    show scanPass (ps ++ U) false (pos + 1) m = (pos + (p :: ps).length, buildMapFrom m U)
    rw [ih U (fun t ht => hP t (List.mem_cons_of_mem p ht)) hU hUu (pos + 1) m]
    have hlen : pos + 1 + ps.length = pos + (p :: ps).length := by
      simp only [List.length_cons]; omega
    rw [hlen]

theorem buildMapFrom_cons_none {t : BTab} (h : tabUci t = none)
    (m : List (String × List BTab)) (ts : List BTab) :
    buildMapFrom m (t :: ts) = buildMapFrom m ts := by
  simp only [buildMapFrom]
  rw [h]

theorem any_key_iff (m : List (String × List BTab)) (u : String) :
    (m.any fun kv => kv.1 = u) = true ↔ u ∈ m.map Prod.fst := by
  simp only [List.any_eq_true, decide_eq_true_eq, List.mem_map]

theorem addToMap_new (m : List (String × List BTab)) (u : String) (t : BTab)
    (hu : u ∉ m.map Prod.fst) : addToMap m u t = m ++ [(u, [t])] := by
  unfold addToMap
  rw [if_neg fun h => hu ((any_key_iff m u).mp h)]

theorem addToMap_mem (m : List (String × List BTab)) (u : String) (t : BTab)
    (hu : u ∈ m.map Prod.fst) :
    addToMap m u t = m.map fun kv => if kv.1 = u then (kv.1, kv.2 ++ [t]) else kv := by
  unfold addToMap
  rw [if_pos ((any_key_iff m u).mpr hu)]

theorem update_keys (m : List (String × List BTab)) (u : String) (t : BTab) :
    ((m.map fun kv => if kv.1 = u then (kv.1, kv.2 ++ [t]) else kv).map Prod.fst)
      = m.map Prod.fst := by
  induction m with
  | nil => rfl
  | cons kv m' ih =>
    by_cases h : kv.1 = u
    · simp [h, ih]
    · simp [h, ih]

theorem update_of_not_mem (u : String) (t : BTab) :
    ∀ m : List (String × List BTab), u ∉ m.map Prod.fst →
      (m.map fun kv => if kv.1 = u then (kv.1, kv.2 ++ [t]) else kv) = m := by
  intro m
  induction m with
  | nil => intro _; rfl
  | cons kv m' ih =>
    intro hu
    have h1 : ¬ kv.1 = u := by
      intro h
      apply hu
      rw [List.map_cons, h]
      exact List.mem_cons_self u _
    have h2 : u ∉ m'.map Prod.fst := by
      intro h
      apply hu
      rw [List.map_cons]
      exact List.mem_cons_of_mem _ h
    simp only [List.map_cons, if_neg h1, ih h2]

theorem addToMap_keysNodup (m : List (String × List BTab)) (u : String) (t : BTab)
    (h : keysNodup m) : keysNodup (addToMap m u t) := by
  by_cases hu : u ∈ m.map Prod.fst
  · unfold keysNodup
    rw [addToMap_mem m u t hu, update_keys]
    exact h
  · unfold keysNodup
    rw [addToMap_new m u t hu, List.map_append]
    show (m.map Prod.fst ++ [u]).Nodup
    refine List.nodup_append.mpr ⟨h, List.nodup_singleton u, ?_⟩
    intro a ha hb
    rw [List.mem_singleton] at hb
    subst hb
    exact hu ha

theorem flatKV_cons (kv : String × List BTab) (m : List (String × List BTab)) :
    flatKV (kv :: m) = kv.2 ++ flatKV m := by
  simp [flatKV]

theorem flatKV_append (a b : List (String × List BTab)) :
    flatKV (a ++ b) = flatKV a ++ flatKV b := by
  simp [flatKV]

theorem flat_update_perm (u : String) (t : BTab) :
    ∀ m : List (String × List BTab), keysNodup m → u ∈ m.map Prod.fst →
      List.Perm (flatKV (m.map fun kv => if kv.1 = u then (kv.1, kv.2 ++ [t]) else kv))
        (flatKV m ++ [t]) := by
  intro m
  induction m with
  | nil => intro _ h; simp at h
  | cons kv m' ih =>
    intro hk hu
    unfold keysNodup at hk
    rw [List.map_cons] at hk
    have hk1 : kv.1 ∉ m'.map Prod.fst := (List.nodup_cons.mp hk).1
    have hk2 : keysNodup m' := (List.nodup_cons.mp hk).2
    by_cases h : kv.1 = u
    · have hrest : (m'.map fun kv => if kv.1 = u then (kv.1, kv.2 ++ [t]) else kv) = m' :=
        update_of_not_mem u t m' (h ▸ hk1)
      simp only [List.map_cons, if_pos h, hrest]
      rw [flatKV_cons, flatKV_cons]
      show List.Perm ((kv.2 ++ [t]) ++ flatKV m') ((kv.2 ++ flatKV m') ++ [t])
      have e1 : (kv.2 ++ [t]) ++ flatKV m' = kv.2 ++ ([t] ++ flatKV m') := by
        rw [List.append_assoc]
      have e2 : (kv.2 ++ flatKV m') ++ [t] = kv.2 ++ (flatKV m' ++ [t]) := by
        rw [List.append_assoc]
      rw [e1, e2]
      exact List.perm_append_comm.append_left kv.2
    · have hu' : u ∈ m'.map Prod.fst := by
        rw [List.map_cons] at hu
        rcases List.mem_cons.mp hu with h1 | h1
        · exact absurd h1.symm h
        · exact h1
      simp only [List.map_cons, if_neg h]
      rw [flatKV_cons, flatKV_cons]
      have e2 : (kv.2 ++ flatKV m') ++ [t] = kv.2 ++ (flatKV m' ++ [t]) := by
        rw [List.append_assoc]
      rw [e2]
      exact (ih hk2 hu').append_left kv.2

theorem addToMap_flatten (m : List (String × List BTab)) (u : String) (t : BTab)
    (hk : keysNodup m) :
    List.Perm (flatKV (addToMap m u t)) (flatKV m ++ [t]) := by
  by_cases hu : u ∈ m.map Prod.fst
  · rw [addToMap_mem m u t hu]
    exact flat_update_perm u t m hk hu
  · rw [addToMap_new m u t hu, flatKV_append]
    rw [show flatKV [(u, [t])] = [t] from rfl]

theorem buildMapFrom_keysNodup :
    ∀ (l : List BTab) (m : List (String × List BTab)), keysNodup m →
      keysNodup (buildMapFrom m l) := by
  intro l
  induction l with
  | nil => intro m h; exact h
  | cons t ts ih =>
    intro m h
    cases hu : tabUci t with
    | none =>
      rw [buildMapFrom_cons_none hu]
      exact ih m h
    | some u =>
      rw [buildMapFrom_cons_some hu]
      exact ih _ (addToMap_keysNodup m u t h)

theorem buildMapFrom_flatten :
    ∀ (l : List BTab) (m : List (String × List BTab)), keysNodup m →
      allContainerTabs l →
      List.Perm (flatKV (buildMapFrom m l)) (flatKV m ++ l) := by
  intro l
  induction l with
  | nil =>
    intro m _ _
    show List.Perm (flatKV m) (flatKV m ++ [])
    rw [List.append_nil]
  | cons t ts ih =>
    intro m hk hc
    obtain ⟨u, hu⟩ := Option.isSome_iff_exists.mp (hc t (List.mem_cons_self t ts))
    rw [buildMapFrom_cons_some hu]
    have h1 := ih (addToMap m u t) (addToMap_keysNodup m u t hk)
      (fun x hx => hc x (List.mem_cons_of_mem t hx))
    have h2 := (addToMap_flatten m u t hk).append_right ts
    have h3 : (flatKV m ++ [t]) ++ ts = flatKV m ++ (t :: ts) := by
      rw [List.append_assoc]
      rfl
    rw [h3] at h2
    exact h1.trans h2

theorem addToMap_groupsOk (m : List (String × List BTab)) (u : String) (t : BTab)
    (hg : mapGroupsOk m) (ht : tabUci t = some u) : mapGroupsOk (addToMap m u t) := by
  by_cases hu : u ∈ m.map Prod.fst
  · rw [addToMap_mem m u t hu]
    intro kv hkv
    obtain ⟨kv0, hkv0, he⟩ := List.mem_map.mp hkv
    by_cases h : kv0.1 = u
    · rw [if_pos h] at he
      subst he
      refine ⟨by simp, ?_⟩
      intro x hx
      rcases List.mem_append.mp hx with h1 | h1
      · exact (hg kv0 hkv0).2 x h1
      · rw [List.mem_singleton] at h1
        subst h1
        rw [ht, h]
    · rw [if_neg h] at he
      subst he
      exact hg kv0 hkv0
  · rw [addToMap_new m u t hu]
    intro kv hkv
    rcases List.mem_append.mp hkv with h1 | h1
    · exact hg kv h1
    · rw [List.mem_singleton] at h1
      subst h1
      refine ⟨by simp, ?_⟩
      intro x hx
      rw [List.mem_singleton] at hx
      subst hx
      exact ht

theorem buildMapFrom_groupsOk :
    ∀ (l : List BTab) (m : List (String × List BTab)), mapGroupsOk m →
      allContainerTabs l → mapGroupsOk (buildMapFrom m l) := by
  intro l
  induction l with
  | nil => intro m h _; exact h
  | cons t ts ih =>
    intro m hg hc
    obtain ⟨u, hu⟩ := Option.isSome_iff_exists.mp (hc t (List.mem_cons_self t ts))
    rw [buildMapFrom_cons_some hu]
    exact ih _ (addToMap_groupsOk m u t hg hu)
      (fun x hx => hc x (List.mem_cons_of_mem t hx))

theorem sortKV_keysNodup (m : List (String × List BTab)) (h : keysNodup m) :
    keysNodup (sortKV m) := by
  unfold keysNodup at h ⊢
  exact ((sortKV_perm m).map Prod.fst).nodup_iff.mpr h

theorem sortKV_groupsOk (m : List (String × List BTab)) (h : mapGroupsOk m) :
    mapGroupsOk (sortKV m) :=
  fun kv hkv => h kv ((sortKV_perm m).mem_iff.mp hkv)

theorem sortKV_flatten (m : List (String × List BTab)) :
    List.Perm (flatKV (sortKV m)) (flatKV m) :=
  ((sortKV_perm m).map Prod.snd).flatten

theorem canonOf_perm (l : List BTab) (hc : allContainerTabs l) :
    List.Perm (canonOf l) l := by
  have h1 : canonOf l = flatKV (sortKV (buildMapFrom [] l)) := rfl
  rw [h1]
  have h2 := sortKV_flatten (buildMapFrom [] l)
  have h3 := buildMapFrom_flatten l [] (by unfold keysNodup; exact List.nodup_nil) hc
  have h4 : flatKV ([] : List (String × List BTab)) ++ l = l := rfl
  rw [h4] at h3
  exact h2.trans h3

theorem addToMap_last (acc : List (String × List BTab)) (u : String) (h : List BTab)
    (t : BTab) (hu : u ∉ acc.map Prod.fst) :
    addToMap (acc ++ [(u, h)]) u t = acc ++ [(u, h ++ [t])] := by
  have hmem : u ∈ (acc ++ [(u, h)]).map Prod.fst := by
    rw [List.map_append]
    exact List.mem_append_right _ (by simp)
  rw [addToMap_mem _ u t hmem]
  rw [List.map_append]
  rw [update_of_not_mem u t acc hu]
  congr 1
  simp

theorem buildMapFrom_group (u : String) :
    ∀ (g : List BTab) (acc : List (String × List BTab)) (h : List BTab)
      (rest : List BTab), u ∉ acc.map Prod.fst → (∀ x ∈ g, tabUci x = some u) →
      buildMapFrom (acc ++ [(u, h)]) (g ++ rest) =
        buildMapFrom (acc ++ [(u, h ++ g)]) rest := by
  intro g
  induction g with
  | nil => intro acc h rest _ _; simp
  | cons x g' ih =>
    intro acc h rest hacc hg
    have hx : tabUci x = some u := hg x (List.mem_cons_self x g')
    show buildMapFrom (acc ++ [(u, h)]) (x :: (g' ++ rest)) =
      buildMapFrom (acc ++ [(u, h ++ (x :: g'))]) rest
    rw [buildMapFrom_cons_some hx]
    rw [addToMap_last acc u h x hacc]
    rw [ih acc (h ++ [x]) rest hacc (fun y hy => hg y (List.mem_cons_of_mem x hy))]
    rw [List.append_assoc]
    rfl

theorem buildMapFrom_rebuild :
    ∀ (m : List (String × List BTab)) (acc : List (String × List BTab)),
      keysNodup m → mapGroupsOk m →
      (∀ k ∈ m.map Prod.fst, k ∉ acc.map Prod.fst) →
      buildMapFrom acc (flatKV m) = acc ++ m := by
  intro m
  induction m with
  | nil => intro acc _ _ _; simp [flatKV, buildMapFrom]
  | cons kv m' ih =>
    intro acc hk hg hdisj
    obtain ⟨hne, hall⟩ := hg kv (List.mem_cons_self kv m')
    obtain ⟨u, g⟩ := kv
    cases g with
    | nil => exact absurd rfl hne
    | cons t0 g' =>
      unfold keysNodup at hk
      rw [List.map_cons] at hk
      have hu_m' : u ∉ m'.map Prod.fst := (List.nodup_cons.mp hk).1
      have hk' : keysNodup m' := (List.nodup_cons.mp hk).2
      rw [flatKV_cons]
      show buildMapFrom acc (t0 :: (g' ++ flatKV m')) = acc ++ ((u, t0 :: g') :: m')
      have ht0 : tabUci t0 = some u := hall t0 (List.mem_cons_self t0 g')
      rw [buildMapFrom_cons_some ht0]
      have huacc : u ∉ acc.map Prod.fst :=
        hdisj u (by rw [List.map_cons]; exact List.mem_cons_self _ _)
      rw [addToMap_new acc u t0 huacc]
      rw [buildMapFrom_group u g' acc [t0] (flatKV m') huacc
        (fun y hy => hall y (List.mem_cons_of_mem t0 hy))]
      have hg' : mapGroupsOk m' := fun kv2 h2 => hg kv2 (List.mem_cons_of_mem _ h2)
      have hdisj' : ∀ k ∈ m'.map Prod.fst, k ∉ (acc ++ [(u, [t0] ++ g')]).map Prod.fst := by
        intro k hkm
        rw [List.map_append]
        intro hmem
        rcases List.mem_append.mp hmem with h1 | h1
        · exact hdisj k (by rw [List.map_cons]; exact List.mem_cons_of_mem _ hkm) h1
        · simp at h1
          subst h1
          exact hu_m' hkm
      rw [ih (acc ++ [(u, [t0] ++ g')]) hk' hg' hdisj']
      rw [List.append_assoc]
      rfl

theorem canonOf_canonOf (l : List BTab) (hc : allContainerTabs l) :
    canonOf (canonOf l) = canonOf l := by
  have hk : keysNodup (buildMapFrom [] l) :=
    buildMapFrom_keysNodup l [] (by unfold keysNodup; exact List.nodup_nil)
  have hg : mapGroupsOk (buildMapFrom [] l) :=
    buildMapFrom_groupsOk l [] (fun kv hkv => absurd hkv (List.not_mem_nil kv)) hc
  have hk2 : keysNodup (sortKV (buildMapFrom [] l)) := sortKV_keysNodup _ hk
  have hg2 : mapGroupsOk (sortKV (buildMapFrom [] l)) := sortKV_groupsOk _ hg
  have hre : buildMapFrom [] (flatKV (sortKV (buildMapFrom [] l)))
      = sortKV (buildMapFrom [] l) := by
    have hbr := buildMapFrom_rebuild (sortKV (buildMapFrom [] l)) [] hk2 hg2
      (fun k _ => List.not_mem_nil k)
    simpa using hbr
  show flatKV (sortKV (buildMapFrom [] (canonOf l))) = canonOf l
  have hcl : canonOf l = flatKV (sortKV (buildMapFrom [] l)) := rfl
  rw [hcl, hre]
  rw [sortKV_eq_of_sorted _ (sortKV_sorted (buildMapFrom [] l))]

theorem sortTabsInternal_pinned (P U : List BTab) (hP : allPinned P)
    (hU : allUnpinned U) (hcP : allContainerTabs P) (hn : NodupIds (P ++ U)) :
    sortTabsInternal (P ++ U) true = canonOf P ++ U := by
  have hscan := scanPass_pinned P U hP hcP hU 0 []
  show doMoves (P ++ U) (scanPass (P ++ U) true 0 []).1
      (((sortKV (scanPass (P ++ U) true 0 []).2).map Prod.snd).flatten) = canonOf P ++ U
  rw [hscan]
  show doMoves (P ++ U) 0 (canonOf P) = canonOf P ++ U
  have hperm : List.Perm (canonOf P) P := canonOf_perm P hcP
  rw [doMoves_pinned_region (canonOf P) P U 0 hP hU hn fun m hm => hperm.mem_iff.mp hm]
  rw [processCore_canon P (canonOf P) hperm.symm (nodupIds_append_left hn)]

theorem sortTabsInternal_unpinned (P U : List BTab) (hP : allPinned P)
    (hU : allUnpinned U) (hcU : allContainerTabs U) (hn : NodupIds (P ++ U)) :
    sortTabsInternal (P ++ U) false = P ++ canonOf U := by
  have hscan := scanPass_unpinned P U hP hU hcU 0 []
  show doMoves (P ++ U) (scanPass (P ++ U) false 0 []).1
      (((sortKV (scanPass (P ++ U) false 0 []).2).map Prod.snd).flatten) = P ++ canonOf U
  rw [hscan]
  show doMoves (P ++ U) (0 + P.length) (canonOf U) = P ++ canonOf U
  rw [Nat.zero_add]
  have hperm : List.Perm (canonOf U) U := canonOf_perm U hcU
  have hnU : NodupIds U :=
    nodupIds_perm List.perm_append_comm hn |> nodupIds_append_left
  rw [doMoves_unpinned_region (canonOf U) P U P.length hP hU hn
    (fun m hm => hperm.mem_iff.mp hm) (Nat.le_refl _)]
  rw [Nat.sub_self]
  rw [processCore_canon U (canonOf U) hperm.symm hnU]

theorem sortWindow_split (P U : List BTab) (hP : allPinned P) (hU : allUnpinned U)
    (hc : allContainerTabs (P ++ U)) (hn : NodupIds (P ++ U)) :
    sortWindow (P ++ U) = canonOf P ++ canonOf U := by
  have hcP : allContainerTabs P := fun t ht => hc t (List.mem_append_left U ht)
  have hcU : allContainerTabs U := fun t ht => hc t (List.mem_append_right P ht)
  unfold sortWindow
  rw [sortTabsInternal_pinned P U hP hU hcP hn]
  have hpermP : List.Perm (canonOf P) P := canonOf_perm P hcP
  have hP' : allPinned (canonOf P) := fun t ht => hP t (hpermP.mem_iff.mp ht)
  have hn' : NodupIds (canonOf P ++ U) :=
    nodupIds_perm (hpermP.symm.append_right U) hn
  rw [sortTabsInternal_unpinned (canonOf P) U hP' hU hcU hn']

/-- Claim C5 (amended): `sortTabs` is idempotent on window lists in which every
window consists of a pinned region followed by an unpinned region, every tab
belongs to a container (its `cookieStoreId` yields a container id), and tab ids
are unique within the window: sorting such a list of windows twice gives the
same result as sorting it once. -/
theorem sortTabs_idempotent_on_container_windows (ws : List (List BTab))
    (h : ∀ w ∈ ws, ∃ P U, w = P ++ U ∧ allPinned P ∧ allUnpinned U ∧
      allContainerTabs (P ++ U) ∧ NodupIds (P ++ U)) :
    sortTabs (sortTabs ws) = sortTabs ws := by
  unfold sortTabs
  rw [List.map_map]
  refine List.map_congr_left ?_
  intro w hw
  obtain ⟨P, U, rfl, hP, hU, hc, hn⟩ := h w hw
  simp only [Function.comp_apply]
  rw [sortWindow_split P U hP hU hc hn]
  have hcP : allContainerTabs P := fun t ht => hc t (List.mem_append_left U ht)
  have hcU : allContainerTabs U := fun t ht => hc t (List.mem_append_right P ht)
  have hpermP : List.Perm (canonOf P) P := canonOf_perm P hcP
  have hpermU : List.Perm (canonOf U) U := canonOf_perm U hcU
  have hP' : allPinned (canonOf P) := fun t ht => hP t (hpermP.mem_iff.mp ht)
  have hU' : allUnpinned (canonOf U) := fun t ht => hU t (hpermU.mem_iff.mp ht)
  have hcP' : allContainerTabs (canonOf P) := fun t ht => hcP t (hpermP.mem_iff.mp ht)
  have hcU' : allContainerTabs (canonOf U) := fun t ht => hcU t (hpermU.mem_iff.mp ht)
  have hc' : allContainerTabs (canonOf P ++ canonOf U) := by
    intro t ht
    rcases List.mem_append.mp ht with h1 | h1
    · exact hcP' t h1
    · exact hcU' t h1
  have hn' : NodupIds (canonOf P ++ canonOf U) :=
    nodupIds_perm (hpermP.symm.append hpermU.symm) hn
  rw [sortWindow_split (canonOf P) (canonOf U) hP' hU' hc' hn']
  rw [canonOf_canonOf P hcP, canonOf_canonOf U hcU]

/-- Concrete instance of the amended C5 theorem: a window with one pinned and
two unpinned container tabs, sorted twice, equals the window sorted once. -/
theorem sortTabs_idempotent_on_container_windows_witness :
    sortTabs (sortTabs [[⟨1, none, true, false, some "firefox-container-3"⟩,
        ⟨2, none, false, false, some "firefox-container-2"⟩,
        ⟨3, none, false, false, some "firefox-container-1"⟩]]) =
      sortTabs [[⟨1, none, true, false, some "firefox-container-3"⟩,
        ⟨2, none, false, false, some "firefox-container-2"⟩,
        ⟨3, none, false, false, some "firefox-container-1"⟩]] := by
  apply sortTabs_idempotent_on_container_windows
  intro w hw
  rw [List.mem_singleton] at hw
  subst hw
  refine ⟨[⟨1, none, true, false, some "firefox-container-3"⟩],
    [⟨2, none, false, false, some "firefox-container-2"⟩,
     ⟨3, none, false, false, some "firefox-container-1"⟩], rfl, ?_, ?_, ?_, ?_⟩
  · unfold allPinned
    decide
  · unfold allUnpinned
    decide
  · unfold allContainerTabs
    decide
  · unfold NodupIds
    decide

end MAC
